import Mathlib

/-!
Verification of the Product Matching & Normalization Engine of the
brite_shopping_api repository.

The Python source (app/models/product_model.py, app/resources/product_resource.py,
app/services/store_visibility.py) is shallowly embedded:

* Python `str` becomes `String` (operated on through `List Char`); `lower`,
  `strip` and the two `re.sub` calls of `_normalize_name` are embedded
  character by character for the ASCII fragment.
* Python `float` values (prices, size values) are modelled as `ℚ`; `round`
  is modelled as round-half-to-even on `ℚ`, matching Python bankers rounding.
* The MongoDB `products` collection is a `List Product` in insertion order;
  `find_one` is `List.find?`, `insert_one` appends and hands out a fresh id
  from a counter, `update_one` with `$set` replaces the first matching
  document.
* `sha256` digests are modelled by the identity on the hashed payload (a
  collision-free stand-in: equal payloads give equal digests, and the
  counterexamples below already collide at the payload level, hence also for
  the real hash).
* `_parse_size` performs regex extraction that no claim depends on; it is
  abstracted as an explicit function parameter `ps : String → SizeInfo`
  threaded through `upsert_manual_entry`, so every theorem quantifies over
  all possible size parsers, the real one included.
-/

set_option maxHeartbeats 1000000

namespace BriteShopping

/-! ## Python string primitives (ASCII fragment) -/

/-- Characters matched by Python regex `\s` (ASCII fragment). -/
def pyWs (c : Char) : Bool :=
  c == ' ' || c == '\t' || c == '\n' || c == '\r' || c == '\x0b' || c == '\x0c'

/-- Characters matched by `[a-z0-9]`. -/
def lowerAlnum (c : Char) : Bool :=
  ('a' ≤ c && c ≤ 'z') || ('0' ≤ c && c ≤ '9')

/-- `str.lower` on one character (ASCII fragment). -/
def pyLowerChar (c : Char) : Char :=
  if 'A' ≤ c && c ≤ 'Z' then Char.ofNat (c.toNat + 32) else c

/-- `str.upper` on one character (ASCII fragment). -/
def pyUpperChar (c : Char) : Char :=
  if 'a' ≤ c && c ≤ 'z' then Char.ofNat (c.toNat - 32) else c

/-- One substitution step of `re.sub(r"[^a-z0-9\s]", " ", ...)`:
any character outside `[a-z0-9]` and whitespace becomes a single space. -/
def subChar (c : Char) : Char :=
  if lowerAlnum c || pyWs c then c else ' '

/-- Helper for `collapseWs`; the flag records whether the previous character
was whitespace (so the current run is already represented by a space). -/
def collapseWsAux (prevWs : Bool) : List Char → List Char
  | [] => []
  | c :: cs =>
    if pyWs c then
      (if prevWs then collapseWsAux true cs else ' ' :: collapseWsAux true cs)
    else c :: collapseWsAux false cs

/-- `re.sub(r"\s+", " ", ...)`: each maximal whitespace run becomes one space. -/
def collapseWs (l : List Char) : List Char := collapseWsAux false l

/-- Removal of trailing whitespace (the right half of `str.strip`). -/
def rstripWs : List Char → List Char
  | [] => []
  | c :: cs =>
    match rstripWs cs with
    | [] => if pyWs c then [] else [c]
    | r => c :: r

/-- `str.strip` on a character list. -/
def stripWs (l : List Char) : List Char :=
  rstripWs (l.dropWhile pyWs)

/-- `str.strip`. -/
def pyStrip (s : String) : String := ⟨stripWs s.data⟩

/-- `str.lower` (ASCII fragment). -/
def pyLower (s : String) : String := ⟨s.data.map pyLowerChar⟩

/-- `str.upper` (ASCII fragment). -/
def pyUpper (s : String) : String := ⟨s.data.map pyUpperChar⟩

/-- `_normalize_name` (product_model.py lines 38-41): lowercase, replace every
character outside `[a-z0-9\s]` by a space, collapse whitespace runs to one
space, strip. -/
def normalizeName (name : String) : String :=
  ⟨stripWs (collapseWs ((name.data.map pyLowerChar).map subChar))⟩

/-- The normalization the spec describes for claim C2: characters outside
`[a-z0-9]` and whitespace are *removed* (not replaced) before the whitespace
collapse and trim. -/
def normalizeNameSpecRemoval (name : String) : String :=
  ⟨stripWs (collapseWs ((name.data.map pyLowerChar).filter
      (fun c => lowerAlnum c || pyWs c)))⟩

/-! ### Words decomposition: an independent description of `normalizeName` -/

/-- The maximal `[a-z0-9]` runs of a character list, in order. -/
def alnumWords : List Char → List (List Char)
  | [] => []
  | c :: cs =>
    if lowerAlnum c then (c :: cs.takeWhile lowerAlnum) :: alnumWords (cs.dropWhile lowerAlnum)
    else alnumWords cs
termination_by l => l.length
decreasing_by
  · exact Nat.lt_succ_of_le (List.dropWhile_sublist lowerAlnum).length_le
  · exact Nat.lt_succ_self cs.length

/-- Joins words with single spaces. -/
def unwords : List (List Char) → List Char
  | [] => []
  | [w] => w
  | w :: x :: r => w ++ ' ' :: unwords (x :: r)

/-- Joins words with single spaces, with a leading space when nonempty. -/
def sepUnwords : List (List Char) → List Char
  | [] => []
  | w :: r => ' ' :: unwords (w :: r)

theorem unwords_cons (w : List Char) (r : List (List Char)) :
    unwords (w :: r) = w ++ sepUnwords r := by
  cases r with
  | nil => simp [unwords, sepUnwords]
  | cons x r => simp [unwords, sepUnwords]

theorem sepUnwords_cons (w : List Char) (r : List (List Char)) :
    sepUnwords (w :: r) = ' ' :: (w ++ sepUnwords r) := by
  show ' ' :: unwords (w :: r) = ' ' :: (w ++ sepUnwords r)
  rw [unwords_cons]

theorem pyWs_not_lowerAlnum {c : Char} (h : pyWs c = true) : lowerAlnum c = false := by
  simp only [pyWs, Bool.or_eq_true, beq_iff_eq] at h
  rcases h with ((((h | h) | h) | h) | h) | h <;> subst h <;> decide

theorem lowerAlnum_not_pyWs {c : Char} (h : lowerAlnum c = true) : pyWs c = false := by
  cases hw : pyWs c with
  | false => rfl
  | true => rw [pyWs_not_lowerAlnum hw] at h; cases h

theorem collapseWsAux_true_eq (l : List Char) :
    collapseWsAux true l = collapseWs (l.dropWhile pyWs) := by
  induction l with
  | nil => simp [collapseWs, collapseWsAux]
  | cons c cs ih =>
    cases hw : pyWs c with
    | true =>
      rw [List.dropWhile_cons_of_pos (by simp [hw])]
      simp only [collapseWsAux, hw, if_true]
      exact ih
    | false =>
      rw [List.dropWhile_cons_of_neg (by simp [hw])]
      simp [collapseWsAux, collapseWs, hw]

theorem collapseWs_nil : collapseWs [] = [] := by
  simp [collapseWs, collapseWsAux]

theorem collapseWs_cons_ws {c : Char} (cs : List Char) (h : pyWs c = true) :
    collapseWs (c :: cs) = ' ' :: collapseWs (cs.dropWhile pyWs) := by
  rw [collapseWs, collapseWsAux, if_pos h, if_neg (by simp), collapseWsAux_true_eq]

theorem collapseWs_cons_not {c : Char} (cs : List Char) (h : pyWs c = false) :
    collapseWs (c :: cs) = c :: collapseWs cs := by
  rw [collapseWs, collapseWsAux, if_neg (by simp [h])]
  rfl

theorem rstripWs_cons_not {c : Char} (cs : List Char) (h : pyWs c = false) :
    rstripWs (c :: cs) = c :: rstripWs cs := by
  cases hr : rstripWs cs with
  | nil => simp [rstripWs, hr, h]
  | cons x xs => simp [rstripWs, hr]

theorem rstripWs_cons_ws {c : Char} (cs : List Char) (h : pyWs c = true) :
    rstripWs (c :: cs) =
      (match rstripWs cs with | [] => [] | r => c :: r) := by
  cases hr : rstripWs cs with
  | nil => simp [rstripWs, hr, h]
  | cons x xs => simp [rstripWs, hr]

theorem alnumWords_cons_word {c : Char} (cs : List Char) (h : lowerAlnum c = true) :
    alnumWords (c :: cs) =
      (c :: cs.takeWhile lowerAlnum) :: alnumWords (cs.dropWhile lowerAlnum) := by
  rw [alnumWords, if_pos h]

theorem alnumWords_cons_not {c : Char} (cs : List Char) (h : lowerAlnum c = false) :
    alnumWords (c :: cs) = alnumWords cs := by
  rw [alnumWords, if_neg (by simp [h])]

/-- Dropping leading whitespace never changes the word decomposition. -/
theorem alnumWords_dropWhile_ws (l : List Char) :
    alnumWords (l.dropWhile pyWs) = alnumWords l := by
  induction l with
  | nil => simp
  | cons c cs ih =>
    cases hw : pyWs c with
    | true =>
      rw [List.dropWhile_cons_of_pos (by simp [hw]), ih,
        alnumWords_cons_not cs (pyWs_not_lowerAlnum hw)]
    | false =>
      rw [List.dropWhile_cons_of_neg (by simp [hw])]

theorem head_dropWhile_false {p : Char → Bool} :
    ∀ (l : List Char) {c : Char} {cs : List Char}, l.dropWhile p = c :: cs → p c = false := by
  intro l
  induction l with
  | nil => intro c cs h; simp at h
  | cons a l ih =>
    intro c cs h
    cases hp : p a with
    | true =>
      rw [List.dropWhile_cons_of_pos (by simp [hp])] at h
      exact ih h
    | false =>
      rw [List.dropWhile_cons_of_neg (by simp [hp])] at h
      cases h; exact hp

theorem mem_of_mem_dropWhile {p : Char → Bool} {l : List Char} {c : Char}
    (h : c ∈ l.dropWhile p) : c ∈ l :=
  (List.dropWhile_sublist p).subset h

theorem mem_of_mem_takeWhile {p : Char → Bool} {l : List Char} {c : Char}
    (h : c ∈ l.takeWhile p) : c ∈ l :=
  (List.takeWhile_sublist p).subset h

theorem alnumWords_ne_nil_aux :
    ∀ (n : Nat) (l : List Char), l.length ≤ n → ∀ w ∈ alnumWords l, w ≠ [] := by
  intro n
  induction n with
  | zero =>
    intro l hl w hw
    rw [List.length_eq_zero.mp (Nat.le_zero.mp hl)] at hw
    simp [alnumWords] at hw
  | succ n ih =>
    intro l hl w hw
    cases l with
    | nil => simp [alnumWords] at hw
    | cons c cs =>
      have hcs : cs.length ≤ n := Nat.le_of_succ_le_succ hl
      cases ha : lowerAlnum c with
      | true =>
        rw [alnumWords_cons_word cs ha] at hw
        rcases List.mem_cons.mp hw with h | h
        · subst h; simp
        · exact ih (cs.dropWhile lowerAlnum)
            (Nat.le_trans (List.dropWhile_sublist lowerAlnum).length_le hcs) w h
      | false =>
        rw [alnumWords_cons_not cs ha] at hw
        exact ih cs hcs w hw

/-- Words produced by `alnumWords` are nonempty. -/
theorem alnumWords_ne_nil (l : List Char) : ∀ w ∈ alnumWords l, w ≠ [] :=
  alnumWords_ne_nil_aux l.length l (Nat.le_refl _)

/-- `unwords` of a word list is empty exactly when the list is empty
(given nonempty words). -/
theorem unwords_eq_nil_iff {ws : List (List Char)} (h : ∀ w ∈ ws, w ≠ []) :
    unwords ws = [] ↔ ws = [] := by
  cases ws with
  | nil => simp [unwords]
  | cons w r =>
    rw [unwords_cons]
    constructor
    · intro he
      rcases List.append_eq_nil.mp he with ⟨hw, _⟩
      exact absurd hw (h w (by simp))
    · intro he; cases he

/-- The restricted alphabet left after the substitution step: every character
is lowercase-alphanumeric or whitespace. -/
def Alpha (l : List Char) : Prop := ∀ c ∈ l, lowerAlnum c = true ∨ pyWs c = true

theorem alpha_of_cons {c : Char} {cs : List Char} (h : Alpha (c :: cs)) : Alpha cs :=
  fun x hx => h x (List.mem_cons_of_mem c hx)

theorem alpha_sub (l : List Char) : Alpha (l.map subChar) := by
  intro c hc
  rcases List.mem_map.mp hc with ⟨a, _, rfl⟩
  unfold subChar
  by_cases h : (lowerAlnum a || pyWs a) = true
  · rw [if_pos h]; exact (Bool.or_eq_true _ _).mp h
  · rw [if_neg h]; right; decide

/-- Core lemma: on the restricted alphabet, right-stripping the whitespace
collapse gives the leading alphanumeric run followed by the remaining words
each preceded by one space. -/
theorem rstrip_collapse_eq_words :
    ∀ (n : Nat) (l : List Char), l.length ≤ n → Alpha l →
      rstripWs (collapseWs l) =
        l.takeWhile lowerAlnum ++ sepUnwords (alnumWords (l.dropWhile lowerAlnum)) := by
  intro n
  induction n with
  | zero =>
    intro l hl _
    rw [List.length_eq_zero.mp (Nat.le_zero.mp hl)]
    simp [collapseWs_nil, rstripWs, alnumWords, sepUnwords]
  | succ n ih =>
    intro l hl halpha
    cases l with
    | nil => simp [collapseWs_nil, rstripWs, alnumWords, sepUnwords]
    | cons c cs =>
      have hcs : cs.length ≤ n := Nat.le_of_succ_le_succ hl
      cases ha : lowerAlnum c with
      | true =>
        have hw : pyWs c = false := lowerAlnum_not_pyWs ha
        rw [collapseWs_cons_not cs hw, rstripWs_cons_not _ hw,
          List.takeWhile_cons_of_pos (by simp [ha]),
          List.dropWhile_cons_of_pos (by simp [ha]),
          ih cs hcs (alpha_of_cons halpha)]
        simp
      | false =>
        have hw : pyWs c = true := by
          rcases halpha c (by simp) with h | h
          · rw [h] at ha; cases ha
          · exact h
        rw [collapseWs_cons_ws cs hw, rstripWs_cons_ws _ (show pyWs ' ' = true by decide),
          List.takeWhile_cons_of_neg (by simp [ha]),
          List.dropWhile_cons_of_neg (by simp [ha]),
          alnumWords_cons_not cs ha, ← alnumWords_dropWhile_ws cs]
        rcases hD : cs.dropWhile pyWs with _ | ⟨c', d'⟩
        · simp [collapseWs_nil, rstripWs, alnumWords, sepUnwords]
        · have hwc' : pyWs c' = false := head_dropWhile_false cs hD
          have hac' : lowerAlnum c' = true := by
            rcases alpha_of_cons halpha c' (mem_of_mem_dropWhile (hD ▸ List.mem_cons_self c' d')) with h | h
            · exact h
            · rw [h] at hwc'; cases hwc'
          have hd' : d'.length ≤ n := by
            have h1 : (c' :: d').length ≤ cs.length := by
              rw [← hD]; exact (List.dropWhile_sublist pyWs).length_le
            exact Nat.le_trans (Nat.le_of_succ_le h1) hcs
          have halphad' : Alpha d' := by
            intro x hx
            exact alpha_of_cons halpha x
              (mem_of_mem_dropWhile (hD ▸ List.mem_cons_of_mem c' hx))
          rw [collapseWs_cons_not _ hwc', rstripWs_cons_not _ hwc',
            ih d' hd' halphad', alnumWords_cons_word d' hac',
            List.nil_append, sepUnwords_cons]
          rfl

/-- On the restricted alphabet the full pipeline (collapse then strip) equals
the space-joined maximal alphanumeric runs. -/
theorem strip_collapse_eq_unwords (l : List Char) (halpha : Alpha l) :
    stripWs (collapseWs l) = unwords (alnumWords l) := by
  cases l with
  | nil => simp [collapseWs_nil, stripWs, rstripWs, alnumWords, unwords]
  | cons c cs =>
    cases ha : lowerAlnum c with
    | true =>
      have hw : pyWs c = false := lowerAlnum_not_pyWs ha
      rw [stripWs, collapseWs_cons_not cs hw,
        List.dropWhile_cons_of_neg (by simp [hw]), rstripWs_cons_not _ hw,
        rstrip_collapse_eq_words cs.length cs (Nat.le_refl _) (alpha_of_cons halpha),
        alnumWords_cons_word cs ha, unwords_cons]
      simp
    | false =>
      have hw : pyWs c = true := by
        rcases halpha c (by simp) with h | h
        · rw [h] at ha; cases ha
        · exact h
      rw [stripWs, collapseWs_cons_ws cs hw, alnumWords_cons_not cs ha,
        ← alnumWords_dropWhile_ws cs]
      rw [List.dropWhile_cons_of_pos (by decide)]
      rcases hD : cs.dropWhile pyWs with _ | ⟨c', d'⟩
      · simp [collapseWs_nil, rstripWs, alnumWords, unwords, List.dropWhile_nil]
      · have hwc' : pyWs c' = false := head_dropWhile_false cs hD
        have hac' : lowerAlnum c' = true := by
          rcases alpha_of_cons halpha c' (mem_of_mem_dropWhile (hD ▸ List.mem_cons_self c' d')) with h | h
          · exact h
          · rw [h] at hwc'; cases hwc'
        have halphad' : Alpha d' := by
          intro x hx
          exact alpha_of_cons halpha x
            (mem_of_mem_dropWhile (hD ▸ List.mem_cons_of_mem c' hx))
        rw [collapseWs_cons_not _ hwc',
          List.dropWhile_cons_of_neg (by simp [hwc']), rstripWs_cons_not _ hwc',
          rstrip_collapse_eq_words d'.length d' (Nat.le_refl _) halphad',
          alnumWords_cons_word d' hac', unwords_cons]
        rfl

theorem lowerAlnum_subChar (c : Char) : lowerAlnum (subChar c) = lowerAlnum c := by
  unfold subChar
  cases ha : lowerAlnum c with
  | true => rw [if_pos (by simp [ha])]; exact ha
  | false =>
    cases hw : pyWs c with
    | true => rw [if_pos (by simp [hw])]; exact ha
    | false => rw [if_neg (by simp [ha, hw])]; decide

theorem takeWhile_alnum_map_sub (l : List Char) :
    (l.map subChar).takeWhile lowerAlnum = l.takeWhile lowerAlnum := by
  induction l with
  | nil => simp
  | cons c cs ih =>
    cases ha : lowerAlnum c with
    | true =>
      have hc : subChar c = c := by unfold subChar; rw [if_pos (by simp [ha])]
      rw [List.map_cons, List.takeWhile_cons_of_pos (by simp [lowerAlnum_subChar, ha]),
        List.takeWhile_cons_of_pos (by simp [ha]), hc, ih]
    | false =>
      rw [List.map_cons, List.takeWhile_cons_of_neg (by simp [lowerAlnum_subChar, ha]),
        List.takeWhile_cons_of_neg (by simp [ha])]

theorem dropWhile_alnum_map_sub (l : List Char) :
    (l.map subChar).dropWhile lowerAlnum = (l.dropWhile lowerAlnum).map subChar := by
  induction l with
  | nil => simp
  | cons c cs ih =>
    cases ha : lowerAlnum c with
    | true =>
      rw [List.map_cons, List.dropWhile_cons_of_pos (by simp [lowerAlnum_subChar, ha]),
        List.dropWhile_cons_of_pos (by simp [ha]), ih]
    | false =>
      rw [List.map_cons, List.dropWhile_cons_of_neg (by simp [lowerAlnum_subChar, ha]),
        List.dropWhile_cons_of_neg (by simp [ha])]
      simp

/-- The substitution step does not change the word decomposition. -/
theorem alnumWords_map_sub :
    ∀ (n : Nat) (l : List Char), l.length ≤ n →
      alnumWords (l.map subChar) = alnumWords l := by
  intro n
  induction n with
  | zero =>
    intro l hl
    rw [List.length_eq_zero.mp (Nat.le_zero.mp hl)]
    simp
  | succ n ih =>
    intro l hl
    cases l with
    | nil => simp
    | cons c cs =>
      have hcs : cs.length ≤ n := Nat.le_of_succ_le_succ hl
      cases ha : lowerAlnum c with
      | true =>
        have hc : subChar c = c := by unfold subChar; rw [if_pos (by simp [ha])]
        rw [List.map_cons, alnumWords_cons_word _ (by rw [lowerAlnum_subChar]; exact ha),
          alnumWords_cons_word cs ha, hc, takeWhile_alnum_map_sub,
          dropWhile_alnum_map_sub,
          ih (cs.dropWhile lowerAlnum)
            (Nat.le_trans (List.dropWhile_sublist lowerAlnum).length_le hcs)]
      | false =>
        rw [List.map_cons, alnumWords_cons_not _ (by rw [lowerAlnum_subChar]; exact ha),
          alnumWords_cons_not cs ha, ih cs hcs]

/-- C2 (amended). `_normalize_name` lowercases its input and *replaces* (not
removes) every character outside `[a-z0-9]` and whitespace by a space before
collapsing whitespace runs and trimming; equivalently, its output is the
space-separated concatenation of the maximal alphanumeric runs of the
lowercased input. The empty string maps to the empty string. -/
theorem claim_C2_normalize_name_amended :
    (∀ s : String, normalizeName s = ⟨unwords (alnumWords (s.data.map pyLowerChar))⟩) ∧
    normalizeName "" = "" := by
  constructor
  · intro s
    show String.mk (stripWs (collapseWs ((s.data.map pyLowerChar).map subChar))) = _
    rw [strip_collapse_eq_unwords _ (alpha_sub _),
      alnumWords_map_sub (s.data.map pyLowerChar).length _ (Nat.le_refl _)]
  · decide

/-- C2 counterexample. The claim says characters outside `[a-z0-9]` and
whitespace are stripped (removed, not replaced). On `"a-b"` the code yields
`"a b"` (the hyphen became a separating space), while removal would yield
`"ab"`, so `_normalize_name` is not the removal-based function the claim
describes. -/
theorem claim_C2_counterexample :
    normalizeName "a-b" = "a b" ∧ normalizeNameSpecRemoval "a-b" = "ab" ∧
    normalizeName "a-b" ≠ normalizeNameSpecRemoval "a-b" := by
  refine ⟨by decide, by decide, by decide⟩

/-! ## Sizes, match keys and checksums -/

/-- Result shape of `_parse_size` (product_model.py lines 64-104): float value,
normalized unit, integer pack count, each possibly `None`. -/
structure SizeInfo where
  value : Option ℚ
  unit : Option String
  pack_count : Option Nat
deriving DecidableEq

/-- Python `str(float)` modelled on `ℚ`: integral values render with a
trailing `.0` as in Python; non-integral values use the canonical fraction
rendering (an injective stand-in for the decimal rendering, which is also
injective on Python floats). -/
def floatStr (q : ℚ) : String :=
  if q.den = 1 then toString q.num ++ ".0" else toString q.num ++ "/" ++ toString q.den

/-- `f"{x or ''}"` for an optional string field. -/
def pyOrEmpty (v : Option String) : String :=
  match v with
  | none => ""
  | some s => s

/-- `f"{size.get('value') or ''}"`: `None` and the falsy `0.0` both render
as the empty string. -/
def pyOrEmptyFloat (v : Option ℚ) : String :=
  match v with
  | none => ""
  | some q => if q = 0 then "" else floatStr q

/-- `f"{size.get('pack_count') or ''}"`: `None` and the falsy `0` both render
as the empty string. -/
def pyOrEmptyNat (v : Option Nat) : String :=
  match v with
  | none => ""
  | some n => if n = 0 then "" else toString n

/-- SHA-256 hex digest, modelled as the identity on the payload (an injective
stand-in; equal payloads give equal digests exactly as for the real hash). -/
def sha256hex (payload : String) : String := payload

/-- `_build_match_key` (product_model.py lines 107-112). -/
def buildMatchKey (normalized_name : String) (brand : Option String) (size : SizeInfo) : String :=
  sha256hex (normalized_name ++ "|" ++ pyOrEmpty brand ++ "|" ++ pyOrEmptyFloat size.value
    ++ "|" ++ pyOrEmpty size.unit ++ "|" ++ pyOrEmptyNat size.pack_count)

/-- `_build_checksum` (product_model.py lines 115-125): same construction with
the store id prepended. -/
def buildChecksum (store_id : String) (normalized_name : String) (brand : Option String)
    (size : SizeInfo) : String :=
  sha256hex (store_id ++ "|" ++ normalized_name ++ "|" ++ pyOrEmpty brand ++ "|"
    ++ pyOrEmptyFloat size.value ++ "|" ++ pyOrEmpty size.unit ++ "|" ++ pyOrEmptyNat size.pack_count)

/-- Pipe-separated fields can be recovered from the joined list when the first
field contains no pipe. -/
theorem append_pipe_cancel : ∀ (a a' b b' : List Char), '|' ∉ a → '|' ∉ a' →
    a ++ '|' :: b = a' ++ '|' :: b' → a = a' ∧ b = b' := by
  intro a
  induction a with
  | nil =>
    intro a' b b' _ ha' h
    cases a' with
    | nil =>
      rw [List.nil_append, List.nil_append] at h
      injection h with _ h2
      exact ⟨rfl, h2⟩
    | cons y a' =>
      exfalso
      rw [List.nil_append, List.cons_append] at h
      injection h with h1 _
      exact ha' (h1 ▸ List.mem_cons_self y a')
  | cons x a ih =>
    intro a' b b' ha ha' h
    cases a' with
    | nil =>
      exfalso
      rw [List.cons_append, List.nil_append] at h
      injection h with h1 _
      exact ha (h1 ▸ List.mem_cons_self x a)
    | cons y a' =>
      rw [List.cons_append, List.cons_append] at h
      injection h with h1 h2
      subst h1
      have hres := ih a' b b' (fun hc => ha (List.mem_cons_of_mem _ hc))
        (fun hc => ha' (List.mem_cons_of_mem _ hc)) h2
      exact ⟨by rw [hres.1], hres.2⟩

/-- String version of `append_pipe_cancel`. -/
theorem string_pipe_cancel {a a' b b' : String} (ha : '|' ∉ a.data) (ha' : '|' ∉ a'.data)
    (h : a ++ "|" ++ b = a' ++ "|" ++ b') : a = a' ∧ b = b' := by
  have hd : a.data ++ '|' :: b.data = a'.data ++ '|' :: b'.data := by
    have := congrArg String.data h
    simpa using this
  have hres := append_pipe_cancel a.data a'.data b.data b'.data ha ha' hd
  exact ⟨String.ext hres.1, String.ext hres.2⟩

/-- C3 (amended). `_build_match_key` digests the pipe-joined rendering of
`(normalized_name, brand, size.value, size.unit, size.pack_count)` where each
field is first collapsed by Python truthiness (`None`, `0`, `0.0` and `""` all
render as the empty field). Hence two calls give the same key exactly when
their five *rendered* fields agree — assuming, as in practice, that no
rendered field contains the pipe separator. Differences erased by the
truthiness collapse (e.g. value `0.0` versus `None`) do not change the key,
which is what refutes the original claim. -/
theorem claim_C3_match_key_amended (nn nn' : String) (b b' : Option String)
    (s s' : SizeInfo)
    (hnn : '|' ∉ nn.data) (hnn' : '|' ∉ nn'.data)
    (hb : '|' ∉ (pyOrEmpty b).data) (hb' : '|' ∉ (pyOrEmpty b').data)
    (hv : '|' ∉ (pyOrEmptyFloat s.value).data) (hv' : '|' ∉ (pyOrEmptyFloat s'.value).data)
    (hu : '|' ∉ (pyOrEmpty s.unit).data) (hu' : '|' ∉ (pyOrEmpty s'.unit).data) :
    buildMatchKey nn b s = buildMatchKey nn' b' s' ↔
      (nn = nn' ∧ pyOrEmpty b = pyOrEmpty b' ∧
        pyOrEmptyFloat s.value = pyOrEmptyFloat s'.value ∧
        pyOrEmpty s.unit = pyOrEmpty s'.unit ∧
        pyOrEmptyNat s.pack_count = pyOrEmptyNat s'.pack_count) := by
  constructor
  · intro h
    unfold buildMatchKey sha256hex at h
    have hre : ∀ x y z w v : String, x ++ "|" ++ y ++ "|" ++ z ++ "|" ++ w ++ "|" ++ v
        = x ++ "|" ++ (y ++ "|" ++ (z ++ "|" ++ (w ++ "|" ++ v))) := by
      intro x y z w v
      simp [String.ext_iff]
    simp only [hre] at h
    obtain ⟨h1, hrest⟩ := string_pipe_cancel hnn hnn' h
    obtain ⟨h2, hrest⟩ := string_pipe_cancel hb hb' hrest
    obtain ⟨h3, hrest⟩ := string_pipe_cancel hv hv' hrest
    obtain ⟨h4, h5⟩ := string_pipe_cancel hu hu' hrest
    exact ⟨h1, h2, h3, h4, h5⟩
  · intro ⟨h1, h2, h3, h4, h5⟩
    unfold buildMatchKey sha256hex
    rw [h1, h2, h3, h4, h5]

/-- Witness for C3 (amended) at concrete inputs. -/
theorem claim_C3_match_key_amended_witness :
    ('|' ∉ ("grace ketchup" : String).data ∧
      '|' ∉ (pyOrEmpty (some "grace")).data ∧
      '|' ∉ (pyOrEmptyFloat (some 330)).data ∧
      '|' ∉ (pyOrEmpty (some "ml")).data) ∧
    (buildMatchKey "grace ketchup" (some "grace") ⟨some 330, some "ml", none⟩ =
        buildMatchKey "grace ketchup" (some "grace") ⟨some 330, some "ml", none⟩ ↔
      ("grace ketchup" : String) = "grace ketchup" ∧
        pyOrEmpty (some "grace") = pyOrEmpty (some "grace") ∧
        pyOrEmptyFloat (some 330) = pyOrEmptyFloat (some 330) ∧
        pyOrEmpty (some "ml") = pyOrEmpty (some "ml") ∧
        pyOrEmptyNat (none : Option Nat) = pyOrEmptyNat (none : Option Nat)) :=
  ⟨⟨by decide, by decide, by decide, by decide⟩,
    claim_C3_match_key_amended "grace ketchup" "grace ketchup" (some "grace") (some "grace")
      ⟨some 330, some "ml", none⟩ ⟨some 330, some "ml", none⟩
      (by decide) (by decide) (by decide) (by decide)
      (by decide) (by decide) (by decide) (by decide)⟩

/-- C3 counterexample. The two size structures `{value: 0.0, unit: "ml"}` and
`{value: None, unit: "ml"}` differ in the parsed size (a present, parsed value
versus an absent one — `_parse_size("0ml")` really returns value `0.0`), yet
`_build_match_key` renders both values as the empty field (`0.0` is falsy), so
the keys coincide, refuting "any difference in those fields yields a
different key". -/
theorem claim_C3_counterexample :
    (⟨some 0, some "ml", none⟩ : SizeInfo) ≠ ⟨none, some "ml", none⟩ ∧
    buildMatchKey "a" none ⟨some 0, some "ml", none⟩ =
      buildMatchKey "a" none ⟨none, some "ml", none⟩ := by
  refine ⟨by decide, by decide⟩

/-! ## Rounding, data model and the Mongo collection -/

/-- Python `round` to an integer: round half to even (bankers rounding). -/
def bankersRound (q : ℚ) : ℤ :=
  if q - ⌊q⌋ < 1/2 then ⌊q⌋
  else if 1/2 < q - ⌊q⌋ then ⌊q⌋ + 1
  else if ⌊q⌋ % 2 = 0 then ⌊q⌋ else ⌊q⌋ + 1

/-- Python `round(x, 2)` on the `ℚ` model. -/
def round2 (q : ℚ) : ℚ := (bankersRound (q * 100) : ℚ) / 100

/-- `_clean_optional_text` (product_model.py lines 31-35). -/
def cleanOptionalText (v : Option String) : Option String :=
  match v with
  | none => none
  | some s => let c := pyStrip s; if c = "" then none else some c

/-- Python `x or y` for an optional string `x` (both `None` and `""` are falsy). -/
def pyOrStr (a : Option String) (b : String) : String :=
  match a with
  | none => b
  | some s => if s = "" then b else s

/-- Python `x or y` for plain strings (`""` is falsy). -/
def pyOrStrS (a b : String) : String := if a = "" then b else a

/-- Python `not value` for an optional string (`None` and `""` are falsy). -/
def optStrFalsy (v : Option String) : Bool :=
  match v with
  | none => true
  | some s => s == ""

/-- One entry of `location_prices` (the dict built at product_model.py
lines 237-243). `amount` is `some q` when the stored amount is
float-parseable with value `q`, and `none` when `float(amount)` would raise
(a legacy non-numeric amount). -/
structure LocationPrice where
  location_id : String
  store_name : String
  amount : Option ℚ
  currency : String
  last_seen_at : Nat
deriving DecidableEq

/-- A document of the `products` collection, with the fields used by the
engine (create payload at product_model.py lines 301-320; the store-less
creation path of product_resource.py lines 156-171 leaves `store_id`,
`store_name`, `checksum` and `match_key` absent, modelled by `none`). -/
structure Product where
  id : Nat
  store_id : Option String
  store_name : Option String
  location_prices : List LocationPrice
  estimated_price : Option ℚ
  name : String
  normalized_name : String
  brand : Option String
  size : Option SizeInfo
  category : Option String
  tags : List String
  aliases : List String
  url : Option String
  image_url : Option String
  embedding : Option Unit
  created_at : Nat
  updated_at : Nat
  checksum : Option String
  match_key : Option String
deriving DecidableEq

/-- A document of the `stores` collection (the `$set` payload of
product_resource.py lines 107-117). -/
structure StoreEntry where
  place_id : String
  store_name : Option String
  latitude : Option ℚ
  longitude : Option ℚ
  address : Option String
deriving DecidableEq

/-- A document of the `store_settings` collection (store_visibility.py). -/
structure StoreSetting where
  store_id : String
  visible : Bool
deriving DecidableEq

/-- The document store: collections in insertion order plus the id counter
that models ObjectId generation. -/
structure DB where
  products : List Product
  stores : List StoreEntry
  store_settings : List StoreSetting
  nextId : Nat
deriving DecidableEq

/-- `get_hidden_store_ids` (store_visibility.py lines 5-12). -/
def getHiddenStoreIds (db : DB) : List String :=
  (db.store_settings.filter (fun s => !s.visible)).map StoreSetting.store_id

/-- Mongo `update_one({"_id": pid}, {"$set": ...})`: replace the first
document with the given id. -/
def replaceById : List Product → Nat → Product → List Product
  | [], _, _ => []
  | x :: xs, pid, p' => if x.id = pid then p' :: xs else x :: replaceById xs pid p'

def DB.updateProductById (db : DB) (pid : Nat) (p' : Product) : DB :=
  { db with products := replaceById db.products pid p' }

/-- Mongo `find_one({"_id": pid})`. -/
def DB.findById (db : DB) (pid : Nat) : Option Product :=
  db.products.find? (fun p => p.id == pid)

/-- Well-formedness maintained by the store: ids are below the allocation
counter and pairwise distinct (Mongo `_id` uniqueness). -/
def DB.WF (db : DB) : Prop :=
  (∀ p ∈ db.products, p.id < db.nextId) ∧ (db.products.map Product.id).Nodup

/-- Database operations performed during a request, for the
no-interaction-on-validation-error claim. -/
inductive DbEvent where
  | findProducts
  | insertProducts
  | updateProducts
  | writeStores
deriving DecidableEq

structure UpsertOut where
  db : DB
  product_id : Nat
  created : Bool
  events : List DbEvent
deriving DecidableEq

/-! ## The resolution engine: `upsert_manual_entry` -/

/-- The exact-key lookup predicate: `find_one({"match_key": match_key})`. -/
def keyPred (mk : String) (p : Product) : Bool := p.match_key == some mk

/-- The fallback query of product_model.py lines 247-249:
`{"normalized_name": nn}` plus, when a brand was supplied (truthy),
`{"brand": {"$in": [nb, None, ""]}}`. -/
def fallbackPred (nn : String) (nb : Option String) (p : Product) : Bool :=
  p.normalized_name == nn &&
    (match nb with
     | some b =>
       if b = "" then true
       else decide (p.brand = some b ∨ p.brand = none ∨ p.brand = some "")
     | none => true)

/-- The two-stage existing-product lookup of product_model.py lines 245-250. -/
def findExisting (db : DB) (mk : String) (nn : String) (nb : Option String) : Option Product :=
  match db.products.find? (keyPred mk) with
  | some e => some e
  | none => db.products.find? (fallbackPred nn nb)

/-- The merge loop of product_model.py lines 253-261: replace the first entry
whose `location_id` matches the store, else append the new observation. -/
def replaceOrAppend : List LocationPrice → LocationPrice → String → List LocationPrice
  | [], obs, _ => [obs]
  | cur :: rest, obs, sid =>
    if cur.location_id = sid then obs :: rest
    else cur :: replaceOrAppend rest obs sid

/-- The merge path of `upsert_manual_entry` (product_model.py lines 252-297):
price-list update, estimate recomputation, metadata backfill. -/
def mergeProduct (e : Product) (lp : LocationPrice) (store_id : String) (now : Nat)
    (nb nc niu : Option String) (nurl ck mk : String) : Product :=
  let lps := replaceOrAppend e.location_prices lp store_id
  let amounts := lps.filterMap (fun item => item.amount)
  let estimated := if amounts.isEmpty then none
    else some (round2 (amounts.sum / (amounts.length : ℚ)))
  { e with
    location_prices := lps
    estimated_price := estimated
    updated_at := now
    brand := if nb.isSome && optStrFalsy e.brand then nb else e.brand
    category := if nc.isSome && optStrFalsy e.category then nc else e.category
    image_url := if niu.isSome && optStrFalsy e.image_url then niu else e.image_url
    url := if !(nurl == "") && (match e.url with
               | none => true
               | some u => u == "" || u.startsWith "manual://") then some nurl else e.url
    checksum := if optStrFalsy e.checksum then some ck else e.checksum
    match_key := if optStrFalsy e.match_key then some mk else e.match_key
    tags := match nc with
            | some c => let t := pyLower c; if t ∈ e.tags then e.tags else e.tags ++ [t]
            | none => e.tags }

/-- The insert payload of the create path (product_model.py lines 301-320). -/
def createdProduct (ps : String → SizeInfo) (db : DB) (now : Nat)
    (name store_id : String) (store_name : Option String) (price : ℚ)
    (currency : String) (brand category url image_url size_hint : Option String) : Product :=
  { id := db.nextId, store_id := some store_id,
    store_name := some ((cleanOptionalText store_name).getD store_id),
    location_prices := [⟨store_id, (cleanOptionalText store_name).getD store_id,
      some price, pyUpper (pyStrip (pyOrStrS currency "JMD")), now⟩],
    estimated_price := some price,
    name := pyStrip name, normalized_name := normalizeName name,
    brand := cleanOptionalText brand, size := some (ps (pyOrStr size_hint name)),
    category := cleanOptionalText category,
    tags := match cleanOptionalText category with | some c => [pyLower c] | none => [],
    aliases := [], url := some ((cleanOptionalText url).getD ("manual://" ++ store_id)),
    image_url := cleanOptionalText image_url, embedding := none,
    created_at := now, updated_at := now,
    checksum := some (buildChecksum store_id (normalizeName name) (cleanOptionalText brand)
      (ps (pyOrStr size_hint name))),
    match_key := some (buildMatchKey (normalizeName name) (cleanOptionalText brand)
      (ps (pyOrStr size_hint name))) }

/-- `ProductModel.upsert_manual_entry` (product_model.py lines 211-322),
parametrized by the size parser `ps` standing for `_parse_size`. -/
def upsertManualEntry (ps : String → SizeInfo) (db : DB) (now : Nat)
    (name : String) (store_id : String) (store_name : Option String) (price : ℚ)
    (currency : String) (brand : Option String) (category : Option String)
    (url : Option String) (image_url : Option String) (size_hint : Option String) :
    UpsertOut :=
  let normalized_name := normalizeName name
  let normalized_brand := cleanOptionalText brand
  let normalized_category := cleanOptionalText category
  let normalized_store_name := (cleanOptionalText store_name).getD store_id
  let normalized_url := (cleanOptionalText url).getD ("manual://" ++ store_id)
  let normalized_image_url := cleanOptionalText image_url
  let normalized_currency := pyUpper (pyStrip (pyOrStrS currency "JMD"))
  let parsed_size := ps (pyOrStr size_hint name)
  let match_key := buildMatchKey normalized_name normalized_brand parsed_size
  let checksum := buildChecksum store_id normalized_name normalized_brand parsed_size
  let location_price : LocationPrice :=
    { location_id := store_id, store_name := normalized_store_name,
      amount := some price, currency := normalized_currency, last_seen_at := now }
  match db.products.find? (keyPred match_key) with
  | some e =>
    { db := db.updateProductById e.id
        (mergeProduct e location_price store_id now normalized_brand
          normalized_category normalized_image_url normalized_url checksum match_key),
      product_id := e.id, created := false,
      events := [DbEvent.findProducts, DbEvent.updateProducts] }
  | none =>
    match db.products.find? (fallbackPred normalized_name normalized_brand) with
    | some e =>
      { db := db.updateProductById e.id
          (mergeProduct e location_price store_id now normalized_brand
            normalized_category normalized_image_url normalized_url checksum match_key),
        product_id := e.id, created := false,
        events := [DbEvent.findProducts, DbEvent.findProducts, DbEvent.updateProducts] }
    | none =>
      { db := { db with
          products := db.products ++ [createdProduct ps db now name store_id store_name
            price currency brand category url image_url size_hint],
          nextId := db.nextId + 1 },
        product_id := db.nextId, created := true,
        events := [DbEvent.findProducts, DbEvent.findProducts, DbEvent.insertProducts] }

/-! ## Helper lemmas about the collection operations -/

theorem replaceById_append_left (l₁ l₂ : List Product) (pid : Nat) (p' : Product)
    (h : ∀ x ∈ l₁, x.id ≠ pid) :
    replaceById (l₁ ++ l₂) pid p' = l₁ ++ replaceById l₂ pid p' := by
  induction l₁ with
  | nil => simp [replaceById]
  | cons x xs ih =>
    rw [List.cons_append, replaceById, if_neg (h x (List.mem_cons_self x xs)),
      ih (fun y hy => h y (List.mem_cons_of_mem x hy)), List.cons_append]

theorem replaceById_find? :
    ∀ (l : List Product) (pid : Nat) (p' : Product), (∃ e ∈ l, e.id = pid) → p'.id = pid →
      (replaceById l pid p').find? (fun p => p.id == pid) = some p' := by
  intro l
  induction l with
  | nil =>
    intro pid p' hmem _
    rcases hmem with ⟨e, he, _⟩
    simp at he
  | cons x xs ih =>
    intro pid p' hmem hid
    by_cases hx : x.id = pid
    · rw [replaceById, if_pos hx, List.find?_cons_of_pos _ (by simp [hid])]
    · rw [replaceById, if_neg hx, List.find?_cons_of_neg _ (by simp [hx])]
      refine ih pid p' ?_ hid
      rcases hmem with ⟨e, he, heid⟩
      rcases List.mem_cons.mp he with h | h
      · exact absurd (h ▸ heid) hx
      · exact ⟨e, h, heid⟩

theorem find?_eq_none_of_all {α : Type} (p : α → Bool) (l : List α)
    (h : ∀ x ∈ l, p x = false) : l.find? p = none :=
  List.find?_eq_none.mpr (fun x hx => by simp [h x hx])

theorem find?_congr_pred {α : Type} {p q : α → Bool} :
    ∀ (l : List α), (∀ x ∈ l, p x = q x) → l.find? p = l.find? q := by
  intro l
  induction l with
  | nil => intro _; rfl
  | cons x xs ih =>
    intro h
    rw [List.find?_cons, List.find?_cons, h x (List.mem_cons_self x xs),
      ih (fun y hy => h y (List.mem_cons_of_mem x hy))]

/-! ## C6: lookup order of `upsert_manual_entry` -/

/-- C6. The existing-product lookup queries by exact `match_key` first: a hit
short-circuits the fallback. Only on a miss does it query by
`normalized_name`, and, when a non-empty brand was supplied, the fallback
additionally requires the stored brand to lie in {supplied brand, null,
empty}. Moreover `upsert_manual_entry` creates a product exactly when this
two-stage lookup finds nothing. -/
theorem claim_C6_lookup_order (db : DB) (mk nn : String) (nb : Option String) :
    (∀ e, db.products.find? (keyPred mk) = some e → findExisting db mk nn nb = some e) ∧
    (db.products.find? (keyPred mk) = none →
      findExisting db mk nn nb =
        db.products.find? (fun p => decide (p.normalized_name = nn ∧
          ∀ b ∈ nb.toList, b ≠ "" → p.brand ∈ [some b, none, some ""]))) ∧
    (∀ ps now name store_id store_name price currency brand category url image_url size_hint,
      (upsertManualEntry ps db now name store_id store_name price currency
          brand category url image_url size_hint).created =
        (findExisting db
          (buildMatchKey (normalizeName name) (cleanOptionalText brand) (ps (pyOrStr size_hint name)))
          (normalizeName name) (cleanOptionalText brand)).isNone) := by
  refine ⟨?_, ?_, ?_⟩
  · intro e he
    unfold findExisting
    rw [he]
  · intro hk
    unfold findExisting
    rw [hk]
    apply find?_congr_pred
    intro p
    intro _
    rw [Bool.eq_iff_iff]
    cases nb with
    | none => simp [fallbackPred]
    | some b =>
      by_cases hb : b = ""
      · subst hb
        simp [fallbackPred]
      · simp only [fallbackPred, Option.toList_some, if_neg hb, Bool.and_eq_true,
          beq_iff_eq, decide_eq_true_eq, List.mem_singleton, List.mem_cons]
        constructor
        · rintro ⟨h1, h2⟩
          refine ⟨h1, fun b' hb' _ => ?_⟩
          rcases hb' with hb' | hb'
          · subst hb'; tauto
          · simp at hb'
        · rintro ⟨h1, h2⟩
          have hb2 := h2 b (Or.inl rfl) hb
          exact ⟨h1, by tauto⟩
  · intro ps now name store_id store_name price currency brand category url image_url size_hint
    unfold upsertManualEntry findExisting
    cases h1 : db.products.find?
        (keyPred (buildMatchKey (normalizeName name) (cleanOptionalText brand)
          (ps (pyOrStr size_hint name)))) with
    | some e => simp [h1]
    | none =>
      cases h2 : db.products.find?
          (fallbackPred (normalizeName name) (cleanOptionalText brand)) with
      | some e => simp [h1, h2]
      | none => simp [h1, h2]

/-! ## Concrete fixtures for witnesses -/

/-- A trivial size parser instantiating the abstract `_parse_size` parameter. -/
def ps0 : String → SizeInfo := fun _ => ⟨none, none, none⟩

/-- The empty catalog. -/
def db0 : DB := ⟨[], [], [], 0⟩

def prodW : Product :=
  { id := 0, store_id := some "a", store_name := some "a",
    location_prices := [⟨"a", "a", some 350, "JMD", 0⟩],
    estimated_price := some 350, name := "x", normalized_name := "x",
    brand := none, size := some ⟨none, none, none⟩, category := none,
    tags := [], aliases := [], url := some "manual://a", image_url := none,
    embedding := none, created_at := 0, updated_at := 0,
    checksum := some "c", match_key := some "k" }

def dbW : DB := ⟨[prodW], [], [], 1⟩

/-- Witness for C6 at a concrete catalog: a `match_key` hit short-circuits. -/
theorem claim_C6_lookup_order_witness :
    dbW.products.find? (keyPred "k") = some prodW ∧
      findExisting dbW "k" "x" none = some prodW :=
  ⟨rfl, (claim_C6_lookup_order dbW "k" "x" none).1 prodW rfl⟩

theorem mergeProduct_id (e : Product) (lp : LocationPrice) (sid : String) (now : Nat)
    (nb nc niu : Option String) (nurl ck mk : String) :
    (mergeProduct e lp sid now nb nc niu nurl ck mk).id = e.id := rfl

theorem mergeProduct_location_prices (e : Product) (lp : LocationPrice) (sid : String)
    (now : Nat) (nb nc niu : Option String) (nurl ck mk : String) :
    (mergeProduct e lp sid now nb nc niu nurl ck mk).location_prices =
      replaceOrAppend e.location_prices lp sid := rfl

theorem mergeProduct_match_key (e : Product) (lp : LocationPrice) (sid : String) (now : Nat)
    (nb nc niu : Option String) (nurl ck mk : String) (he : e.match_key = some mk) :
    (mergeProduct e lp sid now nb nc niu nurl ck mk).match_key = some mk := by
  show (if optStrFalsy e.match_key then some mk else e.match_key) = some mk
  split
  · rfl
  · exact he

/-! ## C1: two identical priced ingests produce one canonical product -/

/-- C1. Starting from a well-formed catalog containing no product with the
incoming match key nor with the incoming normalized name, two successive
`upsert_manual_entry` calls with the same name and store id and prices `p1`
then `p2` yield exactly one new canonical product: the first call creates it,
the second returns `created = False` with the same product id, the catalog
has exactly one product with that match key, and that product ends with a
single price entry for the store whose amount is `p2`. -/
theorem claim_C1_two_upserts_one_product
    (ps : String → SizeInfo) (db : DB) (t1 t2 : Nat)
    (name store_id : String) (store_name : Option String) (p1 p2 : ℚ)
    (currency : String) (brand category url image_url size_hint : Option String)
    (r1 r2 : UpsertOut)
    (hr1 : r1 = upsertManualEntry ps db t1 name store_id store_name p1 currency
      brand category url image_url size_hint)
    (hr2 : r2 = upsertManualEntry ps r1.db t2 name store_id store_name p2 currency
      brand category url image_url size_hint)
    (hwf : DB.WF db)
    (hkey : ∀ p ∈ db.products, p.match_key ≠
      some (buildMatchKey (normalizeName name) (cleanOptionalText brand)
        (ps (pyOrStr size_hint name))))
    (hname : ∀ p ∈ db.products, p.normalized_name ≠ normalizeName name) :
    r1.created = true ∧ r2.created = false ∧ r2.product_id = r1.product_id ∧
    r2.db.products.length = db.products.length + 1 ∧
    (r2.db.products.filter (fun p => p.match_key ==
      some (buildMatchKey (normalizeName name) (cleanOptionalText brand)
        (ps (pyOrStr size_hint name))))).length = 1 ∧
    (r2.db.findById r2.product_id).map Product.location_prices =
      some [⟨store_id, (cleanOptionalText store_name).getD store_id, some p2,
        pyUpper (pyStrip (pyOrStrS currency "JMD")), t2⟩] := by
  have hk1 : db.products.find? (keyPred (buildMatchKey (normalizeName name)
      (cleanOptionalText brand) (ps (pyOrStr size_hint name)))) = none :=
    find?_eq_none_of_all _ _ (fun p hp => by
      simp only [keyPred, beq_eq_false_iff_ne, ne_eq]
      exact hkey p hp)
  have hf1 : db.products.find? (fallbackPred (normalizeName name)
      (cleanOptionalText brand)) = none :=
    find?_eq_none_of_all _ _ (fun p hp => by
      simp only [fallbackPred, beq_eq_false_iff_ne.mpr (hname p hp), Bool.false_and])
  have h1 : r1 = ⟨{ db with
      products := db.products ++ [createdProduct ps db t1 name store_id store_name p1
        currency brand category url image_url size_hint],
      nextId := db.nextId + 1 }, db.nextId, true,
      [DbEvent.findProducts, DbEvent.findProducts, DbEvent.insertProducts]⟩ := by
    rw [hr1]
    simp only [upsertManualEntry, hk1, hf1]
  set P := createdProduct ps db t1 name store_id store_name p1 currency brand category
    url image_url size_hint with hPdef
  have hPmk : P.match_key = some (buildMatchKey (normalizeName name)
      (cleanOptionalText brand) (ps (pyOrStr size_hint name))) := rfl
  have hPid : P.id = db.nextId := rfl
  have hk2 : (db.products ++ [P]).find? (keyPred (buildMatchKey (normalizeName name)
      (cleanOptionalText brand) (ps (pyOrStr size_hint name)))) = some P := by
    rw [List.find?_append, hk1, Option.none_or]
    exact List.find?_cons_of_pos _ (by simp [keyPred, hPmk])
  have h2 : r2 = ⟨({ db with products := db.products ++ [P], nextId := db.nextId + 1 }
        : DB).updateProductById P.id
        (mergeProduct P ⟨store_id, (cleanOptionalText store_name).getD store_id, some p2,
          pyUpper (pyStrip (pyOrStrS currency "JMD")), t2⟩ store_id t2
          (cleanOptionalText brand) (cleanOptionalText category)
          (cleanOptionalText image_url) ((cleanOptionalText url).getD ("manual://" ++ store_id))
          (buildChecksum store_id (normalizeName name) (cleanOptionalText brand)
            (ps (pyOrStr size_hint name)))
          (buildMatchKey (normalizeName name) (cleanOptionalText brand)
            (ps (pyOrStr size_hint name)))),
      P.id, false, [DbEvent.findProducts, DbEvent.updateProducts]⟩ := by
    rw [hr2, h1]
    simp only [upsertManualEntry, hk2]
  set P' := mergeProduct P ⟨store_id, (cleanOptionalText store_name).getD store_id, some p2,
      pyUpper (pyStrip (pyOrStrS currency "JMD")), t2⟩ store_id t2
      (cleanOptionalText brand) (cleanOptionalText category)
      (cleanOptionalText image_url) ((cleanOptionalText url).getD ("manual://" ++ store_id))
      (buildChecksum store_id (normalizeName name) (cleanOptionalText brand)
        (ps (pyOrStr size_hint name)))
      (buildMatchKey (normalizeName name) (cleanOptionalText brand)
        (ps (pyOrStr size_hint name))) with hPdef'
  have hfresh : ∀ x ∈ db.products, x.id ≠ db.nextId := fun x hx => Nat.ne_of_lt (hwf.1 x hx)
  have hupd : ({ db with products := db.products ++ [P], nextId := db.nextId + 1 }
      : DB).updateProductById P.id P' =
      { db with products := db.products ++ [P'], nextId := db.nextId + 1 } := by
    unfold DB.updateProductById
    rw [show ({ db with products := db.products ++ [P], nextId := db.nextId + 1 }
        : DB).products = db.products ++ [P] from rfl]
    rw [hPid, replaceById_append_left _ _ _ _ hfresh]
    simp [replaceById, hPid]
  have hP'id : P'.id = db.nextId := by rw [hPdef', mergeProduct_id]; exact hPid
  have hP'mk : P'.match_key = some (buildMatchKey (normalizeName name)
      (cleanOptionalText brand) (ps (pyOrStr size_hint name))) := by
    rw [hPdef']
    exact mergeProduct_match_key _ _ _ _ _ _ _ _ _ _ hPmk
  have hP'lps : P'.location_prices =
      [⟨store_id, (cleanOptionalText store_name).getD store_id, some p2,
        pyUpper (pyStrip (pyOrStrS currency "JMD")), t2⟩] := by
    rw [hPdef', mergeProduct_location_prices]
    rw [show P.location_prices = [⟨store_id, (cleanOptionalText store_name).getD store_id,
      some p1, pyUpper (pyStrip (pyOrStrS currency "JMD")), t1⟩] from rfl]
    simp [replaceOrAppend]
  refine ⟨by rw [h1], by rw [h2], by rw [h2, h1]; exact hPid, ?_, ?_, ?_⟩
  · rw [h2, hupd]
    simp
  · rw [h2, hupd]
    show ((db.products ++ [P']).filter _).length = 1
    rw [List.filter_append]
    rw [List.filter_eq_nil_iff.mpr (fun p hp => by
      simp only [beq_iff_eq]
      exact hkey p hp)]
    simp [hP'mk]
  · rw [h2, hupd]
    show ((db.products ++ [P']).find? (fun p => p.id == P.id)).map Product.location_prices =
      some [⟨store_id, (cleanOptionalText store_name).getD store_id, some p2,
        pyUpper (pyStrip (pyOrStrS currency "JMD")), t2⟩]
    rw [List.find?_append, find?_eq_none_of_all _ _ (fun x hx => by
        rw [hPid]
        simp only [beq_eq_false_iff_ne, ne_eq]
        exact hfresh x hx), Option.none_or,
      List.find?_cons_of_pos _ (by rw [hPid]; simp [hP'id])]
    simp [hP'lps]

/-- Witness for C1 on the empty catalog with the spec's Grace Ketchup example. -/
theorem claim_C1_two_upserts_one_product_witness :
    DB.WF db0 ∧
    (upsertManualEntry ps0 db0 5 "Grace Ketchup" "a" none 350 "JMD"
      none none none none none).created = true ∧
    (upsertManualEntry ps0 (upsertManualEntry ps0 db0 5 "Grace Ketchup" "a" none 350 "JMD"
        none none none none none).db 6 "Grace Ketchup" "a" none 360 "JMD"
      none none none none none).created = false := by
  have hwf : DB.WF db0 := ⟨fun p hp => absurd hp (List.not_mem_nil p), List.nodup_nil⟩
  have h := claim_C1_two_upserts_one_product ps0 db0 5 6 "Grace Ketchup" "a" none 350 360
    "JMD" none none none none none _ _ rfl rfl hwf
    (fun p hp => absurd hp (List.not_mem_nil p))
    (fun p hp => absurd hp (List.not_mem_nil p))
  exact ⟨hwf, h.1, h.2.1⟩

/-! ## Merge-path and create-path unfoldings of the upsert -/

theorem findExisting_mem {db : DB} {mk nn : String} {nb : Option String} {e : Product}
    (h : findExisting db mk nn nb = some e) : e ∈ db.products := by
  unfold findExisting at h
  cases h1 : db.products.find? (keyPred mk) with
  | some e1 =>
    simp only [h1] at h
    cases h
    exact List.mem_of_find?_eq_some h1
  | none =>
    simp only [h1] at h
    exact List.mem_of_find?_eq_some h

/-- When the lookup resolves to `e`, the upsert takes the merge path. -/
theorem upsert_merge_case
    (ps : String → SizeInfo) (db : DB) (now : Nat)
    (name store_id : String) (store_name : Option String) (price : ℚ) (currency : String)
    (brand category url image_url size_hint : Option String) (e : Product)
    (he : findExisting db
      (buildMatchKey (normalizeName name) (cleanOptionalText brand) (ps (pyOrStr size_hint name)))
      (normalizeName name) (cleanOptionalText brand) = some e) :
    upsertManualEntry ps db now name store_id store_name price currency brand category
        url image_url size_hint =
      ⟨db.updateProductById e.id
        (mergeProduct e ⟨store_id, (cleanOptionalText store_name).getD store_id, some price,
          pyUpper (pyStrip (pyOrStrS currency "JMD")), now⟩ store_id now
          (cleanOptionalText brand) (cleanOptionalText category) (cleanOptionalText image_url)
          ((cleanOptionalText url).getD ("manual://" ++ store_id))
          (buildChecksum store_id (normalizeName name) (cleanOptionalText brand)
            (ps (pyOrStr size_hint name)))
          (buildMatchKey (normalizeName name) (cleanOptionalText brand)
            (ps (pyOrStr size_hint name)))),
       e.id, false,
       if (db.products.find? (keyPred (buildMatchKey (normalizeName name)
           (cleanOptionalText brand) (ps (pyOrStr size_hint name))))).isSome
       then [DbEvent.findProducts, DbEvent.updateProducts]
       else [DbEvent.findProducts, DbEvent.findProducts, DbEvent.updateProducts]⟩ := by
  unfold findExisting at he
  cases h1 : db.products.find? (keyPred (buildMatchKey (normalizeName name)
      (cleanOptionalText brand) (ps (pyOrStr size_hint name)))) with
  | some e1 =>
    simp only [h1] at he
    cases he
    simp only [upsertManualEntry, h1, Option.isSome_some, if_true]
  | none =>
    simp only [h1] at he
    simp only [upsertManualEntry, h1, he, Option.isSome_none, Bool.false_eq_true, if_false]

/-- When the lookup finds nothing, the upsert takes the create path. -/
theorem upsert_create_case
    (ps : String → SizeInfo) (db : DB) (now : Nat)
    (name store_id : String) (store_name : Option String) (price : ℚ) (currency : String)
    (brand category url image_url size_hint : Option String)
    (hk : db.products.find? (keyPred (buildMatchKey (normalizeName name)
      (cleanOptionalText brand) (ps (pyOrStr size_hint name)))) = none)
    (hf : db.products.find? (fallbackPred (normalizeName name)
      (cleanOptionalText brand)) = none) :
    upsertManualEntry ps db now name store_id store_name price currency brand category
        url image_url size_hint =
      ⟨{ db with
          products := db.products ++ [createdProduct ps db now name store_id store_name
            price currency brand category url image_url size_hint],
          nextId := db.nextId + 1 }, db.nextId, true,
       [DbEvent.findProducts, DbEvent.findProducts, DbEvent.insertProducts]⟩ := by
  simp only [upsertManualEntry, hk, hf]

/-! ## Replace-or-append lemmas -/

theorem mem_replaceOrAppend (l : List LocationPrice) (obs : LocationPrice) (sid : String) :
    obs ∈ replaceOrAppend l obs sid := by
  induction l with
  | nil => simp [replaceOrAppend]
  | cons cur rest ih =>
    by_cases hc : cur.location_id = sid
    · rw [replaceOrAppend, if_pos hc]
      exact List.mem_cons_self _ _
    · rw [replaceOrAppend, if_neg hc]
      exact List.mem_cons_of_mem _ ih

/-- With at most one entry per store, the first-match replacement loop acts as
a map over the whole list (replace in place) when the store is present, and as
an append otherwise. -/
theorem replaceOrAppend_eq (l : List LocationPrice) (obs : LocationPrice) (sid : String)
    (hnd : (l.map LocationPrice.location_id).Nodup) :
    replaceOrAppend l obs sid =
      if l.any (fun c => c.location_id == sid)
      then l.map (fun c => if c.location_id = sid then obs else c)
      else l ++ [obs] := by
  induction l with
  | nil => simp [replaceOrAppend]
  | cons cur rest ih =>
    have hnd2 := hnd
    rw [List.map_cons, List.nodup_cons] at hnd2
    by_cases hc : cur.location_id = sid
    · rw [replaceOrAppend, if_pos hc]
      have hany : (cur :: rest).any (fun c => c.location_id == sid) = true := by
        simp [List.any_cons, hc]
      rw [if_pos hany, List.map_cons, if_pos hc]
      congr 1
      have hrest : ∀ c ∈ rest, c.location_id ≠ sid := by
        intro c hcr hceq
        exact hnd2.1 (hc ▸ hceq ▸ List.mem_map_of_mem LocationPrice.location_id hcr)
      rw [List.map_congr_left (fun c hcr => if_neg (hrest c hcr))]
      exact (List.map_id rest).symm
    · rw [replaceOrAppend, if_neg hc, ih hnd2.2]
      by_cases hany : rest.any (fun c => c.location_id == sid) = true
      · rw [if_pos hany, if_pos (by simp [List.any_cons, hany]), List.map_cons, if_neg hc]
      · have hany' : rest.any (fun c => c.location_id == sid) = false :=
          Bool.not_eq_true _ ▸ hany
        rw [if_neg (by simp [hany]), if_neg (by simp [List.any_cons, hc, hany']),
          List.cons_append]

theorem replaceOrAppend_nodup (l : List LocationPrice) (obs : LocationPrice) (sid : String)
    (hnd : (l.map LocationPrice.location_id).Nodup) (hobs : obs.location_id = sid) :
    ((replaceOrAppend l obs sid).map LocationPrice.location_id).Nodup := by
  rw [replaceOrAppend_eq l obs sid hnd]
  by_cases hany : l.any (fun c => c.location_id == sid) = true
  · rw [if_pos hany, List.map_map]
    have : (LocationPrice.location_id ∘ fun c => if c.location_id = sid then obs else c) =
        fun c : LocationPrice => if c.location_id = sid then sid else c.location_id := by
      funext c
      by_cases hcs : c.location_id = sid
      · simp [Function.comp, hcs, hobs]
      · simp [Function.comp, hcs]
    rw [this]
    have : (l.map fun c : LocationPrice => if c.location_id = sid then sid
        else c.location_id) = l.map LocationPrice.location_id := by
      apply List.map_congr_left
      intro c _
      by_cases hcs : c.location_id = sid
      · rw [if_pos hcs, hcs]
      · rw [if_neg hcs]
    rw [this]
    exact hnd
  · rw [if_neg hany, List.map_append]
    refine List.Nodup.append hnd (by simp) ?_
    intro x hx hx2
    simp only [List.map_cons, List.map_nil, List.mem_singleton] at hx2
    subst hx2
    rw [hobs] at hx
    rcases List.mem_map.mp hx with ⟨c, hcl, hcid⟩
    exact hany (List.any_eq_true.mpr ⟨c, hcl, by simp [hcid]⟩)

/-! ## C4: at most one price entry per store -/

/-- C4. If the upsert resolves to an existing product `e` whose
`location_prices` has at most one entry per `location_id`, then after the call
the product still has at most one entry per `location_id`: the entry whose
`location_id` equals the incoming store id is replaced in place when present,
and the new observation is appended otherwise. -/
theorem claim_C4_at_most_one_entry_per_store
    (ps : String → SizeInfo) (db : DB) (now : Nat)
    (name store_id : String) (store_name : Option String) (price : ℚ) (currency : String)
    (brand category url image_url size_hint : Option String) (e : Product) (r : UpsertOut)
    (hr : r = upsertManualEntry ps db now name store_id store_name price currency
      brand category url image_url size_hint)
    (he : findExisting db
      (buildMatchKey (normalizeName name) (cleanOptionalText brand) (ps (pyOrStr size_hint name)))
      (normalizeName name) (cleanOptionalText brand) = some e)
    (hnd : (e.location_prices.map LocationPrice.location_id).Nodup) :
    r.created = false ∧ r.product_id = e.id ∧
    ∃ p', r.db.findById e.id = some p' ∧
      (p'.location_prices.map LocationPrice.location_id).Nodup ∧
      p'.location_prices =
        (if e.location_prices.any (fun c => c.location_id == store_id)
         then e.location_prices.map (fun c => if c.location_id = store_id then
            (⟨store_id, (cleanOptionalText store_name).getD store_id, some price,
              pyUpper (pyStrip (pyOrStrS currency "JMD")), now⟩ : LocationPrice) else c)
         else e.location_prices ++ [⟨store_id, (cleanOptionalText store_name).getD store_id,
            some price, pyUpper (pyStrip (pyOrStrS currency "JMD")), now⟩]) := by
  rw [upsert_merge_case ps db now name store_id store_name price currency brand category
    url image_url size_hint e he] at hr
  subst hr
  refine ⟨rfl, rfl, ?_⟩
  refine ⟨mergeProduct e ⟨store_id, (cleanOptionalText store_name).getD store_id, some price,
      pyUpper (pyStrip (pyOrStrS currency "JMD")), now⟩ store_id now
      (cleanOptionalText brand) (cleanOptionalText category) (cleanOptionalText image_url)
      ((cleanOptionalText url).getD ("manual://" ++ store_id))
      (buildChecksum store_id (normalizeName name) (cleanOptionalText brand)
        (ps (pyOrStr size_hint name)))
      (buildMatchKey (normalizeName name) (cleanOptionalText brand)
        (ps (pyOrStr size_hint name))), ?_, ?_, ?_⟩
  · exact replaceById_find? db.products e.id _ ⟨e, findExisting_mem he, rfl⟩
      (mergeProduct_id _ _ _ _ _ _ _ _ _ _)
  · rw [mergeProduct_location_prices]
    exact replaceOrAppend_nodup _ _ _ hnd rfl
  · rw [mergeProduct_location_prices]
    exact replaceOrAppend_eq _ _ _ hnd

/-- Witness for C4: a merge into `dbW`, whose product has one entry for
store `"a"`; the incoming observation for `"a"` replaces it in place. -/
theorem claim_C4_at_most_one_entry_per_store_witness :
    findExisting dbW (buildMatchKey (normalizeName "x") (cleanOptionalText none)
        (ps0 (pyOrStr none "x"))) (normalizeName "x") (cleanOptionalText none) = some prodW ∧
    (prodW.location_prices.map LocationPrice.location_id).Nodup ∧
    (upsertManualEntry ps0 dbW 7 "x" "a" none 400 "JMD"
      none none none none none).created = false := by
  have he : findExisting dbW (buildMatchKey (normalizeName "x") (cleanOptionalText none)
      (ps0 (pyOrStr none "x"))) (normalizeName "x") (cleanOptionalText none) = some prodW :=
    rfl
  have h := claim_C4_at_most_one_entry_per_store ps0 dbW 7 "x" "a" none 400 "JMD"
    none none none none none prodW _ rfl he (by decide)
  exact ⟨he, by decide, h.1⟩

/-! ## C5: the estimated price -/

theorem mergeProduct_estimated (e : Product) (lp : LocationPrice) (sid : String) (now : Nat)
    (nb nc niu : Option String) (nurl ck mk : String) :
    (mergeProduct e lp sid now nb nc niu nurl ck mk).estimated_price =
      (if ((replaceOrAppend e.location_prices lp sid).filterMap LocationPrice.amount).isEmpty
       then none
       else some (round2
        (((replaceOrAppend e.location_prices lp sid).filterMap LocationPrice.amount).sum /
          (((replaceOrAppend e.location_prices lp sid).filterMap
              LocationPrice.amount).length : ℚ)))) := rfl

/-- C5 (amended). After `upsert_manual_entry`, the resolved product's
`estimated_price` is: on the merge path, the arithmetic mean of the amounts in
its (updated) `location_prices` that parse as numeric, rounded to 2 decimals —
never null, since the incoming observation is numeric; on the create path, the
*raw* price (no rounding applied), its single observation list being exactly
`[price]`. The original claim's "rounded mean on both paths" fails on the
create path for prices with more than two decimals. -/
theorem claim_C5_estimated_price_amended
    (ps : String → SizeInfo) (db : DB) (now : Nat)
    (name store_id : String) (store_name : Option String) (price : ℚ) (currency : String)
    (brand category url image_url size_hint : Option String) (r : UpsertOut)
    (hr : r = upsertManualEntry ps db now name store_id store_name price currency
      brand category url image_url size_hint)
    (hwf : DB.WF db) :
    ∃ p, r.db.findById r.product_id = some p ∧
      (r.created = true → p.estimated_price = some price ∧
        p.location_prices.filterMap LocationPrice.amount = [price]) ∧
      (r.created = false →
        p.location_prices.filterMap LocationPrice.amount ≠ [] ∧
        p.estimated_price = some (round2
          ((p.location_prices.filterMap LocationPrice.amount).sum /
            ((p.location_prices.filterMap LocationPrice.amount).length : ℚ)))) := by
  cases hex : findExisting db
      (buildMatchKey (normalizeName name) (cleanOptionalText brand) (ps (pyOrStr size_hint name)))
      (normalizeName name) (cleanOptionalText brand) with
  | some e =>
    rw [upsert_merge_case ps db now name store_id store_name price currency brand category
      url image_url size_hint e hex] at hr
    subst hr
    refine ⟨mergeProduct e ⟨store_id, (cleanOptionalText store_name).getD store_id, some price,
        pyUpper (pyStrip (pyOrStrS currency "JMD")), now⟩ store_id now
        (cleanOptionalText brand) (cleanOptionalText category) (cleanOptionalText image_url)
        ((cleanOptionalText url).getD ("manual://" ++ store_id))
        (buildChecksum store_id (normalizeName name) (cleanOptionalText brand)
          (ps (pyOrStr size_hint name)))
        (buildMatchKey (normalizeName name) (cleanOptionalText brand)
          (ps (pyOrStr size_hint name))), ?_, ?_, ?_⟩
    · exact replaceById_find? db.products e.id _ ⟨e, findExisting_mem hex, rfl⟩
        (mergeProduct_id _ _ _ _ _ _ _ _ _ _)
    · intro h
      cases h
    · intro _
      have hne : (mergeProduct e ⟨store_id, (cleanOptionalText store_name).getD store_id,
          some price, pyUpper (pyStrip (pyOrStrS currency "JMD")), now⟩ store_id now
          (cleanOptionalText brand) (cleanOptionalText category) (cleanOptionalText image_url)
          ((cleanOptionalText url).getD ("manual://" ++ store_id))
          (buildChecksum store_id (normalizeName name) (cleanOptionalText brand)
            (ps (pyOrStr size_hint name)))
          (buildMatchKey (normalizeName name) (cleanOptionalText brand)
            (ps (pyOrStr size_hint name)))).location_prices.filterMap
            LocationPrice.amount ≠ [] := by
        rw [mergeProduct_location_prices]
        apply List.ne_nil_of_mem (a := price)
        exact List.mem_filterMap.mpr ⟨_, mem_replaceOrAppend e.location_prices _ store_id, rfl⟩
      refine ⟨hne, ?_⟩
      rw [mergeProduct_estimated, mergeProduct_location_prices]
      rw [if_neg (by
        rw [mergeProduct_location_prices] at hne
        simpa [List.isEmpty_iff] using hne)]
  | none =>
    have hk : db.products.find? (keyPred (buildMatchKey (normalizeName name)
        (cleanOptionalText brand) (ps (pyOrStr size_hint name)))) = none := by
      unfold findExisting at hex
      cases h1 : db.products.find? (keyPred (buildMatchKey (normalizeName name)
          (cleanOptionalText brand) (ps (pyOrStr size_hint name)))) with
      | some e1 =>
        simp only [h1] at hex
        exact hex
      | none => rfl
    have hf : db.products.find? (fallbackPred (normalizeName name)
        (cleanOptionalText brand)) = none := by
      unfold findExisting at hex
      simp only [hk] at hex
      exact hex
    rw [upsert_create_case ps db now name store_id store_name price currency brand category
      url image_url size_hint hk hf] at hr
    subst hr
    refine ⟨createdProduct ps db now name store_id store_name price currency brand category
      url image_url size_hint, ?_, ?_, ?_⟩
    · show (db.products ++ [createdProduct ps db now name store_id store_name price currency
        brand category url image_url size_hint]).find? (fun p => p.id == db.nextId) =
        some (createdProduct ps db now name store_id store_name price currency brand category
          url image_url size_hint)
      rw [List.find?_append, find?_eq_none_of_all _ _ (fun x hx => by
        simp only [beq_eq_false_iff_ne, ne_eq]
        exact Nat.ne_of_lt (hwf.1 x hx)), Option.none_or]
      exact List.find?_cons_of_pos _ (by simp [createdProduct])
    · intro _
      exact ⟨rfl, rfl⟩
    · intro h
      cases h

/-- Witness for C5 (amended): a create-path upsert on the empty catalog. -/
theorem claim_C5_estimated_price_amended_witness :
    DB.WF db0 ∧
    (∃ p, (upsertManualEntry ps0 db0 3 "x" "a" none 350 "JMD"
          none none none none none).db.findById
        (upsertManualEntry ps0 db0 3 "x" "a" none 350 "JMD"
          none none none none none).product_id = some p ∧
      ((upsertManualEntry ps0 db0 3 "x" "a" none 350 "JMD"
          none none none none none).created = true →
        p.estimated_price = some 350 ∧
        p.location_prices.filterMap LocationPrice.amount = [350]) ∧
      ((upsertManualEntry ps0 db0 3 "x" "a" none 350 "JMD"
          none none none none none).created = false →
        p.location_prices.filterMap LocationPrice.amount ≠ [] ∧
        p.estimated_price = some (round2
          ((p.location_prices.filterMap LocationPrice.amount).sum /
            ((p.location_prices.filterMap LocationPrice.amount).length : ℚ))))) := by
  have hwf : DB.WF db0 := ⟨fun p hp => absurd hp (List.not_mem_nil p), List.nodup_nil⟩
  exact ⟨hwf, claim_C5_estimated_price_amended ps0 db0 3 "x" "a" none 350 "JMD"
    none none none none none _ rfl hwf⟩

/-- C5 counterexample. Ingesting price `100.999` into an empty catalog stores
`estimated_price = 100.999` (the raw float), but the mean of the single
numeric amount rounded to 2 decimals is `101.0`; so on the create path
`estimated_price` is *not* the rounded mean the claim asserts. -/
theorem claim_C5_counterexample :
    ((upsertManualEntry ps0 db0 0 "item" "a" none (100999/1000) "JMD"
        none none none none none).db.findById 0).map Product.estimated_price =
      some (some (100999/1000)) ∧
    ((upsertManualEntry ps0 db0 0 "item" "a" none (100999/1000) "JMD"
        none none none none none).db.findById 0).map
        (fun p => p.location_prices.filterMap LocationPrice.amount) =
      some [100999/1000] ∧
    round2 ((([100999/1000] : List ℚ).sum) / ((([100999/1000] : List ℚ).length : ℚ))) ≠
      100999/1000 := by
  refine ⟨rfl, rfl, ?_⟩
  have hs : ((([100999/1000] : List ℚ).sum) / ((([100999/1000] : List ℚ).length : ℚ))) =
      100999/1000 := by
    simp
  rw [hs]
  norm_num [round2, bankersRound]

/-! ## Serialization: `_serialize`, `get_one` and `search` -/

/-- A BSON field value, restricted to the shapes the engine stores. -/
inductive FVal where
  | s (v : String)
  | q (v : ℚ)
  | n
  | oid (v : Nat)
  | dt (v : Nat)
  | strList (vs : List String)
  | lps (vs : List LocationPrice)
  | sz (v : SizeInfo)
deriving DecidableEq

/-- A document: ordered association list of fields. -/
abbrev Doc := List (String × FVal)

def optSVal (v : Option String) : FVal :=
  match v with
  | some s => FVal.s s
  | none => FVal.n

/-- A key present only when the value exists (fields the store-less creation
path never writes). -/
def optKeyS (k : String) (v : Option String) : Doc :=
  match v with
  | some s => [(k, FVal.s s)]
  | none => []

/-- The stored document shape of a product (the insert payload of
product_model.py lines 301-320 with Mongo's `_id`; `store_id`, `store_name`,
`checksum`, `match_key` are keys only when present). -/
def Product.toDoc (p : Product) : Doc :=
  ("_id", FVal.oid p.id) ::
  (optKeyS "store_id" p.store_id ++ optKeyS "store_name" p.store_name ++
  [("location_prices", FVal.lps p.location_prices),
   ("estimated_price", match p.estimated_price with | some v => FVal.q v | none => FVal.n),
   ("name", FVal.s p.name), ("normalized_name", FVal.s p.normalized_name),
   ("brand", optSVal p.brand),
   ("size", match p.size with | some z => FVal.sz z | none => FVal.n),
   ("category", optSVal p.category),
   ("tags", FVal.strList p.tags), ("aliases", FVal.strList p.aliases),
   ("url", optSVal p.url), ("image_url", optSVal p.image_url),
   ("embedding", FVal.n),
   ("created_at", FVal.dt p.created_at), ("updated_at", FVal.dt p.updated_at)] ++
  optKeyS "checksum" p.checksum ++ optKeyS "match_key" p.match_key)

/-- Rendering of a datetime as an ISO-8601 string, abstracted to an injective
rendering of the tick. -/
def isoString (t : Nat) : String := toString t

/-- `_serialize` step 1: `_id` rendered as a string. -/
def idStep (d : Doc) : Doc :=
  d.map (fun kv => if kv.1 = "_id" then
    (kv.1, match kv.2 with | FVal.oid i => FVal.s (toString i) | v => v) else kv)

/-- `_serialize` step 2: pop `embedding`, `checksum`, `aliases`. -/
def popStep (d : Doc) : Doc :=
  d.filter (fun kv =>
    !(kv.1 == "embedding") && !(kv.1 == "checksum") && !(kv.1 == "aliases"))

/-- `_serialize` step 3: datetimes to ISO strings. -/
def dtStep (d : Doc) : Doc :=
  d.map (fun kv => if kv.1 = "created_at" || kv.1 = "updated_at" then
    (kv.1, match kv.2 with | FVal.dt t => FVal.s (isoString t) | v => v) else kv)

/-- `_serialize` step 4: when the hidden set is non-empty (truthy), drop
price entries of hidden stores. -/
def hiddenStep (hidden : List String) (d : Doc) : Doc :=
  if hidden.isEmpty then d
  else d.map (fun kv => if kv.1 = "location_prices" then
    (kv.1, match kv.2 with
      | FVal.lps vs => FVal.lps (vs.filter (fun lp => !(hidden.contains lp.location_id)))
      | v => v) else kv)

/-- `_serialize` (product_model.py lines 172-192). -/
def serializeDoc (d : Doc) (hidden : List String) : Doc :=
  if d.isEmpty then d
  else hiddenStep hidden (dtStep (popStep (idStep d)))

/-- `ProductModel.get_one` (product_model.py lines 324-327). -/
def getOne (db : DB) (product_id : Nat) : Option Doc :=
  (db.products.find? (fun p => p.id == product_id)).map
    (fun p => serializeDoc p.toDoc (getHiddenStoreIds db))

/-- Case-insensitive substring matching: the model of a `$regex` query with
`$options: "i"` whose pattern is literal (pass 2 escapes the query with
`re.escape`; filter patterns are modelled the same way). -/
def ciContains (hay needle : String) : Bool :=
  (pyLower hay).data.tails.any (fun t => (pyLower needle).data.isPrefixOf t)

/-- Python truthiness filter for optional strings: `None` and `""` are falsy. -/
def optTruthy (v : Option String) : Option String :=
  match v with
  | some s => if s = "" then none else some s
  | none => none

/-- `_build_extra_filters` (product_model.py lines 363-373). -/
structure ExtraFilters where
  category : Option String
  tag : Option String
  store_id : Option String
deriving DecidableEq

def buildExtraFilters (category tag store_id : Option String) : ExtraFilters :=
  ⟨optTruthy category, optTruthy tag, optTruthy store_id⟩

/-- Evaluation of the category/tag/store filter clauses on a document. -/
def evalExtra (f : ExtraFilters) (p : Product) : Bool :=
  (match f.category with
   | some c => match p.category with | some pc => ciContains pc c | none => false
   | none => true) &&
  (match f.tag with
   | some t => p.tags.any (fun tg => ciContains tg t)
   | none => true) &&
  (match f.store_id with
   | some sid => p.store_id == some sid
   | none => true)

/-- The pass-2 regex predicate of `search` (product_model.py lines 410-418):
case-insensitive substring over name, normalized_name, brand, category, tags. -/
def regexMatch (q : String) (p : Product) : Bool :=
  ciContains p.name q || ciContains p.normalized_name q ||
  (match p.brand with | some b => ciContains b q | none => false) ||
  (match p.category with | some c => ciContains c q | none => false) ||
  p.tags.any (fun t => ciContains t q)

/-- Sort key used by Mongo `.sort("updated_at", -1)`. -/
def updRel (a b : Product) : Prop := b.updated_at ≤ a.updated_at

instance : DecidableRel updRel := fun a b => Nat.decLe _ _

instance : IsTotal Product updRel := ⟨fun a b => (Nat.le_total b.updated_at a.updated_at).imp
  (fun h => h) (fun h => h)⟩

instance : IsTrans Product updRel := ⟨fun _ _ _ hab hbc => Nat.le_trans hbc hab⟩

/-- A deterministic model of Mongo `.sort("updated_at", -1)`. -/
def sortByUpdatedDesc (l : List Product) : List Product := List.insertionSort updRel l

/-- Mongo `.limit(n)`: `n = 0` means no limit. -/
def mongoLimit {α : Type} (n : Nat) (l : List α) : List α := if n = 0 then l else l.take n

/-- `ProductModel.search` (product_model.py lines 375-442), parametrized by
the `$text` pass `ts` (index creation plus the `$text` query, which may raise:
`Except.error`). -/
def search (ts : DB → String → ExtraFilters → Nat → Except Unit (List Product))
    (db : DB) (query : Option String) (category tag store_id : Option String)
    (limit : Nat) : List Doc :=
  let extra := buildExtraFilters category tag store_id
  let hidden := getHiddenStoreIds db
  match optTruthy query with
  | some q =>
    let pass2 :=
      (mongoLimit limit (sortByUpdatedDesc (db.products.filter
        (fun p => regexMatch q p && evalExtra extra p)))).map
        (fun p => serializeDoc p.toDoc hidden)
    match ts db q extra limit with
    | Except.ok results =>
      if results.isEmpty then pass2
      else results.map (fun p => serializeDoc p.toDoc hidden)
    | Except.error _ => pass2
  | none =>
    (mongoLimit limit (sortByUpdatedDesc (db.products.filter (evalExtra extra)))).map
      (fun p => serializeDoc p.toDoc hidden)


/-! ### Generic association-list lemmas for the serializer -/

theorem keys_map_pres (f : String × FVal → String × FVal)
    (hf : ∀ kv, (f kv).1 = kv.1) :
    ∀ l : Doc, (l.map f).map Prod.fst = l.map Prod.fst := by
  intro l
  induction l with
  | nil => rfl
  | cons kv l ih => simp [hf kv, ih]

theorem keys_filter_on_fst (p : String → Bool) :
    ∀ l : Doc, (l.filter (fun kv => p kv.1)).map Prod.fst = (l.map Prod.fst).filter p := by
  intro l
  induction l with
  | nil => rfl
  | cons kv l ih =>
    cases hp : p kv.1 with
    | true => simp [List.filter_cons, hp, ih]
    | false => simp [List.filter_cons, hp, ih]

theorem lookup_map_pres (f : String × FVal → String × FVal)
    (hf : ∀ kv, (f kv).1 = kv.1) (k : String) :
    ∀ l : Doc, (l.map f).lookup k = (l.lookup k).map (fun v => (f (k, v)).2) := by
  intro l
  induction l with
  | nil => rfl
  | cons kv l ih =>
    rcases kv with ⟨k', v⟩
    rw [List.map_cons, List.lookup, List.lookup]
    rw [show (f (k', v)).1 = k' from hf (k', v)]
    cases hk : k == k' with
    | true =>
      have : k = k' := beq_iff_eq.mp hk
      subst this
      simp
    | false => simp [ih]

theorem lookup_filter_on_fst (p : String → Bool) (k : String) (hk : p k = true) :
    ∀ l : Doc, (l.filter (fun kv => p kv.1)).lookup k = l.lookup k := by
  intro l
  induction l with
  | nil => rfl
  | cons kv l ih =>
    rcases kv with ⟨k', v⟩
    cases hp : p k' with
    | true =>
      rw [List.filter_cons_of_pos (by simpa using hp), List.lookup, List.lookup, ih]
    | false =>
      rw [List.filter_cons_of_neg (by simpa using hp), List.lookup]
      cases hkk : k == k' with
      | true =>
        have : k = k' := beq_iff_eq.mp hkk
        subst this
        rw [hk] at hp
        cases hp
      | false => simp [ih]

/-! ### Facts about the serializer -/

theorem idStep_keys (d : Doc) : (idStep d).map Prod.fst = d.map Prod.fst :=
  keys_map_pres _ (fun kv => by by_cases h : kv.1 = "_id" <;> simp [h]) d

theorem dtStep_keys (d : Doc) : (dtStep d).map Prod.fst = d.map Prod.fst :=
  keys_map_pres _ (fun kv => by
    by_cases h : kv.1 = "created_at" || kv.1 = "updated_at" <;> simp [h]) d

theorem hiddenStep_keys (hidden : List String) (d : Doc) :
    (hiddenStep hidden d).map Prod.fst = d.map Prod.fst := by
  unfold hiddenStep
  cases h : hidden.isEmpty with
  | true => rw [if_pos rfl]
  | false =>
    rw [if_neg (by simp [h])]
    exact keys_map_pres _ (fun kv => by
      by_cases hk : kv.1 = "location_prices" <;> simp [hk]) d

/-- The serializer's keys are the stored keys minus the three internal ones. -/
theorem serializeDoc_keys (d : Doc) (hidden : List String) (hne : d.isEmpty = false) :
    (serializeDoc d hidden).map Prod.fst =
      (d.map Prod.fst).filter (fun k =>
        !(k == "embedding") && !(k == "checksum") && !(k == "aliases")) := by
  unfold serializeDoc
  rw [hne]
  simp only [Bool.false_eq_true, if_false]
  rw [hiddenStep_keys, dtStep_keys]
  have h1 : (popStep (idStep d)).map Prod.fst =
      ((idStep d).map Prod.fst).filter (fun k =>
        !(k == "embedding") && !(k == "checksum") && !(k == "aliases")) :=
    keys_filter_on_fst (fun k =>
      !(k == "embedding") && !(k == "checksum") && !(k == "aliases")) (idStep d)
  rw [h1, idStep_keys]

theorem lookup_idStep (d : Doc) :
    (idStep d).lookup "location_prices" = d.lookup "location_prices" := by
  unfold idStep
  rw [lookup_map_pres _ (fun kv => by by_cases h : kv.1 = "_id" <;> simp [h])]
  cases d.lookup "location_prices" with
  | none => rfl
  | some v => simp

theorem lookup_dtStep (d : Doc) :
    (dtStep d).lookup "location_prices" = d.lookup "location_prices" := by
  unfold dtStep
  rw [lookup_map_pres _ (fun kv => by
    by_cases h : kv.1 = "created_at" || kv.1 = "updated_at" <;> simp [h])]
  cases d.lookup "location_prices" with
  | none => rfl
  | some v => simp

theorem lookup_popStep (d : Doc) :
    (popStep d).lookup "location_prices" = d.lookup "location_prices" := by
  unfold popStep
  exact lookup_filter_on_fst (fun k =>
    !(k == "embedding") && !(k == "checksum") && !(k == "aliases"))
    "location_prices" (by decide) d

theorem lookup_hiddenStep (hidden : List String) (d : Doc) (vs : List LocationPrice)
    (hv : d.lookup "location_prices" = some (FVal.lps vs)) :
    (hiddenStep hidden d).lookup "location_prices" =
      some (FVal.lps (vs.filter (fun lp => !(hidden.contains lp.location_id)))) := by
  unfold hiddenStep
  cases h : hidden.isEmpty with
  | true =>
    rw [if_pos rfl, hv]
    have : hidden = [] := List.isEmpty_iff.mp h
    subst this
    congr 1
    congr 1
    exact (List.filter_eq_self.mpr (fun lp _ => rfl)).symm
  | false =>
    rw [if_neg (by simp [h])]
    rw [lookup_map_pres _ (fun kv => by
      by_cases hk : kv.1 = "location_prices" <;> simp [hk]) "location_prices", hv]
    simp

/-- Serializing a stored product document removes the three internal fields
and filters hidden-store price entries. -/
theorem serializeDoc_toDoc (p : Product) (hidden : List String) :
    ("embedding" ∉ (serializeDoc p.toDoc hidden).map Prod.fst ∧
      "checksum" ∉ (serializeDoc p.toDoc hidden).map Prod.fst ∧
      "aliases" ∉ (serializeDoc p.toDoc hidden).map Prod.fst) ∧
    (serializeDoc p.toDoc hidden).lookup "location_prices" =
      some (FVal.lps (p.location_prices.filter
        (fun lp => !(hidden.contains lp.location_id)))) := by
  have hne : p.toDoc.isEmpty = false := rfl
  constructor
  · rw [serializeDoc_keys p.toDoc hidden hne]
    refine ⟨?_, ?_, ?_⟩ <;>
      · intro hmem
        rcases List.mem_filter.mp hmem with ⟨_, hcond⟩
        simp at hcond
  · have hbase : p.toDoc.lookup "location_prices" = some (FVal.lps p.location_prices) := by
      unfold Product.toDoc
      cases p.store_id <;> cases p.store_name <;>
        simp [optKeyS, List.lookup]
    unfold serializeDoc
    rw [hne]
    simp only [Bool.false_eq_true, if_false]
    exact lookup_hiddenStep hidden _ _ (by rw [lookup_dtStep, lookup_popStep, lookup_idStep]; exact hbase)

/-- C8. Every document returned by `get_one` or `search` has the internal
fields `embedding`, `checksum` and `aliases` absent, and its
`location_prices` equals the stored list with every hidden-store entry
removed (so a product priced at a hidden store X and a visible store Y comes
back with only the Y entry). -/
theorem claim_C8_internal_fields_and_hidden_stores (db : DB) :
    (∀ pid d, getOne db pid = some d →
      ("embedding" ∉ d.map Prod.fst ∧ "checksum" ∉ d.map Prod.fst ∧
        "aliases" ∉ d.map Prod.fst) ∧
      ∃ p, p ∈ db.products ∧ p.id = pid ∧
        d.lookup "location_prices" = some (FVal.lps (p.location_prices.filter
          (fun lp => !((getHiddenStoreIds db).contains lp.location_id))))) ∧
    (∀ ts query category tag store_id limit d,
      d ∈ search ts db query category tag store_id limit →
      ("embedding" ∉ d.map Prod.fst ∧ "checksum" ∉ d.map Prod.fst ∧
        "aliases" ∉ d.map Prod.fst) ∧
      ∃ lps : List LocationPrice,
        d.lookup "location_prices" = some (FVal.lps (lps.filter
          (fun lp => !((getHiddenStoreIds db).contains lp.location_id))))) := by
  constructor
  · intro pid d hd
    unfold getOne at hd
    cases hfind : db.products.find? (fun p => p.id == pid) with
    | none => rw [hfind] at hd; cases hd
    | some p =>
      rw [hfind] at hd
      have hd3 : some (serializeDoc p.toDoc (getHiddenStoreIds db)) = some d := hd
      have hd4 := (Option.some.inj hd3).symm
      subst hd4
      obtain ⟨hkeys, hlps⟩ := serializeDoc_toDoc p (getHiddenStoreIds db)
      have hpid : (p.id == pid) = true := by
        have := List.find?_some hfind
        exact this
      exact ⟨hkeys, p, List.mem_of_find?_eq_some hfind, beq_iff_eq.mp hpid, hlps⟩
  · intro ts query category tag store_id limit d hd
    have hmem : ∃ p : Product, d = serializeDoc p.toDoc (getHiddenStoreIds db) := by
      cases hq : optTruthy query with
      | some q =>
        simp only [search, hq] at hd
        cases hts : ts db q (buildExtraFilters category tag store_id) limit with
        | ok results =>
          simp only [hts] at hd
          by_cases hres : results.isEmpty = true
          · rw [if_pos hres] at hd
            rcases List.mem_map.mp hd with ⟨p, _, hp⟩
            exact ⟨p, hp.symm⟩
          · rw [if_neg hres] at hd
            rcases List.mem_map.mp hd with ⟨p, _, hp⟩
            exact ⟨p, hp.symm⟩
        | error e =>
          simp only [hts] at hd
          rcases List.mem_map.mp hd with ⟨p, _, hp⟩
          exact ⟨p, hp.symm⟩
      | none =>
        simp only [search, hq] at hd
        rcases List.mem_map.mp hd with ⟨p, _, hp⟩
        exact ⟨p, hp.symm⟩
    rcases hmem with ⟨p, rfl⟩
    obtain ⟨hkeys, hlps⟩ := serializeDoc_toDoc p (getHiddenStoreIds db)
    exact ⟨hkeys, p.location_prices, hlps⟩

/-- Witness for C8: a catalog whose store `"x"` is hidden; the product priced
at `"x"` and `"y"` comes back from `get_one` with only the `"y"` entry. -/
theorem claim_C8_internal_fields_and_hidden_stores_witness :
    (getOne ⟨[{ prodW with
        location_prices := [⟨"x", "x", some 5, "JMD", 0⟩, ⟨"y", "y", some 7, "JMD", 0⟩] }],
      [], [⟨"x", false⟩], 1⟩ 0).isSome = true ∧
    (∀ d, getOne ⟨[{ prodW with
        location_prices := [⟨"x", "x", some 5, "JMD", 0⟩, ⟨"y", "y", some 7, "JMD", 0⟩] }],
      [], [⟨"x", false⟩], 1⟩ 0 = some d →
      "embedding" ∉ d.map Prod.fst ∧
      d.lookup "location_prices" = some (FVal.lps [⟨"y", "y", some 7, "JMD", 0⟩])) := by
  refine ⟨rfl, ?_⟩
  intro d hd
  obtain ⟨⟨hemb, _, _⟩, p, _, _, hlps⟩ :=
    (claim_C8_internal_fields_and_hidden_stores _).1 0 d hd
  refine ⟨hemb, ?_⟩
  have hd' : getOne ⟨[{ prodW with
      location_prices := [⟨"x", "x", some 5, "JMD", 0⟩, ⟨"y", "y", some 7, "JMD", 0⟩] }],
    [], [⟨"x", false⟩], 1⟩ 0 = some d := hd
  rw [show d = serializeDoc ({ prodW with
      location_prices := [⟨"x", "x", some 5, "JMD", 0⟩, ⟨"y", "y", some 7, "JMD", 0⟩]
      } : Product).toDoc ["x"] by
    have := hd'.symm.trans rfl
    exact Option.some.inj this]
  rfl

/-! ## C9: the regex fallback pass of `search` -/

/-- C9. With a non-empty query, whenever the text pass returns zero results or
raises, `search` returns the products matching the query as a case-insensitive
substring of name, normalized name, brand, category or any tag (OR-combined),
AND-combined with the category/tag/store filters, ordered by `updated_at`
descending and limited to `limit`. -/
theorem claim_C9_regex_fallback
    (ts : DB → String → ExtraFilters → Nat → Except Unit (List Product))
    (db : DB) (q : String) (category tag store_id : Option String) (limit : Nat)
    (hq : q ≠ "") (hlim : 0 < limit)
    (hts : ts db q (buildExtraFilters category tag store_id) limit = Except.ok [] ∨
      ts db q (buildExtraFilters category tag store_id) limit = Except.error ()) :
    ∃ l' : List Product,
      l'.Perm (db.products.filter (fun p =>
        (ciContains p.name q || ciContains p.normalized_name q ||
          (match p.brand with | some b => ciContains b q | none => false) ||
          (match p.category with | some c => ciContains c q | none => false) ||
          p.tags.any (fun t => ciContains t q)) &&
        evalExtra (buildExtraFilters category tag store_id) p)) ∧
      l'.Pairwise (fun a b => b.updated_at ≤ a.updated_at) ∧
      search ts db (some q) category tag store_id limit =
        (l'.take limit).map (fun p => serializeDoc p.toDoc (getHiddenStoreIds db)) := by
  have hqt : optTruthy (some q) = some q := by simp [optTruthy, hq]
  have hlim' : ¬ limit = 0 := Nat.pos_iff_ne_zero.mp hlim
  refine ⟨sortByUpdatedDesc (db.products.filter (fun p =>
    regexMatch q p && evalExtra (buildExtraFilters category tag store_id) p)), ?_, ?_, ?_⟩
  · exact List.perm_insertionSort updRel _
  · exact List.sorted_insertionSort updRel _
  · rcases hts with hts | hts
    · simp only [search, hqt, hts, List.isEmpty_nil, if_true]
      rw [show mongoLimit limit (sortByUpdatedDesc (db.products.filter (fun p =>
          regexMatch q p && evalExtra (buildExtraFilters category tag store_id) p))) =
        (sortByUpdatedDesc (db.products.filter (fun p =>
          regexMatch q p && evalExtra (buildExtraFilters category tag store_id) p))).take limit
        from by rw [mongoLimit, if_neg hlim']]
    · simp only [search, hqt, hts]
      rw [show mongoLimit limit (sortByUpdatedDesc (db.products.filter (fun p =>
          regexMatch q p && evalExtra (buildExtraFilters category tag store_id) p))) =
        (sortByUpdatedDesc (db.products.filter (fun p =>
          regexMatch q p && evalExtra (buildExtraFilters category tag store_id) p))).take limit
        from by rw [mongoLimit, if_neg hlim']]

/-- A text pass that always returns zero results, and a catalog with one
product named Macaroni. -/
def ts0 : DB → String → ExtraFilters → Nat → Except Unit (List Product) :=
  fun _ _ _ _ => Except.ok []

def dbM : DB := ⟨[{ prodW with name := "Macaroni", normalized_name := "macaroni" }], [], [], 1⟩

/-- Witness for C9: searching `"maca"` with an empty text pass falls back to
the substring pass. -/
theorem claim_C9_regex_fallback_witness :
    (("maca" : String) ≠ "" ∧ 0 < 50 ∧
      ts0 dbM "maca" (buildExtraFilters none none none) 50 = Except.ok []) ∧
    (∃ l' : List Product,
      l'.Perm (dbM.products.filter (fun p =>
        (ciContains p.name "maca" || ciContains p.normalized_name "maca" ||
          (match p.brand with | some b => ciContains b "maca" | none => false) ||
          (match p.category with | some c => ciContains c "maca" | none => false) ||
          p.tags.any (fun t => ciContains t "maca")) &&
        evalExtra (buildExtraFilters none none none) p)) ∧
      l'.Pairwise (fun a b => b.updated_at ≤ a.updated_at) ∧
      search ts0 dbM (some "maca") none none none 50 =
        (l'.take 50).map (fun p => serializeDoc p.toDoc (getHiddenStoreIds dbM))) :=
  ⟨⟨by decide, by decide, rfl⟩,
    claim_C9_regex_fallback ts0 dbM "maca" none none none 50
      (by decide) (by decide) (Or.inl rfl)⟩

/-! ## The HTTP resource layer: `_validate_manual_payload` and `post` -/

/-- The raw `price` field of a JSON payload: absent, a value `float()`
accepts (with its value), or a value `float()` rejects. -/
inductive RawPrice where
  | missing
  | num (v : ℚ)
  | bad
deriving DecidableEq

/-- A raw manual-entry JSON payload (product_resource.py lines 13-24). -/
structure RawData where
  name : Option String
  store_id : Option String
  store_name : Option String
  brand : Option String
  category : Option String
  currency : Option String
  size_hint : Option String
  image_url : Option String
  url : Option String
  place_id : Option String
  price : RawPrice
  latitude : Option ℚ
  longitude : Option ℚ
  address : Option String
deriving DecidableEq

/-- The validated payload dict (product_resource.py lines 45-61). -/
structure ValidPayload where
  name : String
  store_id : Option String
  store_name : Option String
  price : Option ℚ
  currency : String
  brand : Option String
  category : Option String
  size_hint : Option String
  image_url : Option String
  url : Option String
  place_id : Option String
  latitude : Option ℚ
  longitude : Option ℚ
  address : Option String
deriving DecidableEq

/-- `str(data.get(k, "")).strip() or None`. -/
def strOrNone (v : Option String) : Option String :=
  let s := pyStrip (v.getD "")
  if s = "" then none else some s

/-- `ProductResource._validate_manual_payload` (product_resource.py
lines 12-61). -/
def validateManualPayload (d : RawData) : Except (String × Nat) ValidPayload :=
  let name := pyStrip (d.name.getD "")
  let store_id :=
    let s := pyLower (pyStrip (d.store_id.getD ""))
    if s = "" then none else some s
  let store_name :=
    match strOrNone d.store_name with
    | some s => some s
    | none => store_id
  let brand := strOrNone d.brand
  let category := strOrNone d.category
  let currency :=
    let c := pyUpper (pyStrip (d.currency.getD "JMD"))
    if c = "" then "JMD" else c
  let size_hint := strOrNone d.size_hint
  let image_url := strOrNone d.image_url
  let url := strOrNone d.url
  let place_id := strOrNone d.place_id
  if name.length < 2 then
    Except.error ("Product name must be at least 2 characters", 400)
  else
    match store_id with
    | some _ =>
      match d.price with
      | RawPrice.num v =>
        if v ≤ 0 then Except.error ("price must be greater than 0", 400)
        else if currency.length ≠ 3 then
          Except.error ("currency must be a 3-letter code", 400)
        else Except.ok ⟨name, store_id, store_name, some v, currency, brand, category,
          size_hint, image_url, url, place_id, d.latitude, d.longitude, strOrNone d.address⟩
      | _ => Except.error ("price is required when store is provided", 400)
    | none =>
      let price := match d.price with | RawPrice.num v => some v | _ => none
      Except.ok ⟨name, store_id, store_name, price, currency, brand, category,
        size_hint, image_url, url, place_id, d.latitude, d.longitude, strOrNone d.address⟩

inductive PostResp where
  | error (msg : String) (code : Nat)
  | ok (msg : String) (product_id : Nat) (code : Nat)
deriving DecidableEq

structure PostOut where
  resp : PostResp
  db : DB
  events : List DbEvent
deriving DecidableEq

def replaceStoreByPlaceId : List StoreEntry → String → StoreEntry → List StoreEntry
  | [], _, _ => []
  | x :: xs, pid, e => if x.place_id = pid then e :: xs else x :: replaceStoreByPlaceId xs pid e

/-- `db.stores.update_one({"place_id": ...}, {"$set": ...}, upsert=True)`
(product_resource.py lines 106-117). -/
def storesUpsert (db : DB) (p : ValidPayload) (pid : String) : DB :=
  let entry : StoreEntry := ⟨pid, p.store_name, p.latitude, p.longitude, p.address⟩
  if db.stores.any (fun s => s.place_id == pid)
  then { db with stores := replaceStoreByPlaceId db.stores pid entry }
  else { db with stores := db.stores ++ [entry] }

/-- The store-less (product-only) creation path
(product_resource.py lines 131-176). -/
def productOnlyCreate (db1 : DB) (now : Nat) (p : ValidPayload) :
    PostResp × DB × List DbEvent :=
  let normalized := pyLower (pyStrip p.name)
  match db1.products.find? (fun pr => pr.normalized_name == normalized) with
  | some ex =>
    let ex' := { ex with
      updated_at := now
      brand := if (optTruthy p.brand).isSome && optStrFalsy ex.brand then p.brand else ex.brand
      category := if (optTruthy p.category).isSome && optStrFalsy ex.category then p.category
        else ex.category
      image_url := if (optTruthy p.image_url).isSome && optStrFalsy ex.image_url
        then p.image_url else ex.image_url }
    (PostResp.ok "Product already exists" ex.id 200, db1.updateProductById ex.id ex',
      [DbEvent.findProducts, DbEvent.updateProducts])
  | none =>
    let doc : Product :=
      { id := db1.nextId, store_id := none, store_name := none,
        location_prices := [], estimated_price := none, name := p.name,
        normalized_name := normalized, brand := p.brand, size := none,
        category := p.category,
        tags := match p.category with | some c => [pyLower c] | none => [],
        aliases := [], url := p.url, image_url := p.image_url, embedding := none,
        created_at := now, updated_at := now, checksum := none, match_key := none }
    (PostResp.ok "Product created" db1.nextId 201,
      { db1 with products := db1.products ++ [doc], nextId := db1.nextId + 1 },
      [DbEvent.findProducts, DbEvent.insertProducts])

/-- The manual/mobile branch of `ProductResource.post`
(product_resource.py lines 93-176), parametrized by the size parser. -/
def postManual (ps : String → SizeInfo) (db : DB) (now : Nat) (d : RawData) : PostOut :=
  match validateManualPayload d with
  | Except.error (m, c) => ⟨PostResp.error m c, db, []⟩
  | Except.ok p =>
    let step1 : DB × List DbEvent :=
      match p.place_id with
      | some pid => (storesUpsert db p pid, [DbEvent.writeStores])
      | none => (db, [])
    match p.store_id, p.price with
    | some sid, some v =>
      if v = 0 then
        let r := productOnlyCreate step1.1 now p
        ⟨r.1, r.2.1, step1.2 ++ r.2.2⟩
      else
        let r := upsertManualEntry ps step1.1 now p.name sid p.store_name v p.currency
          p.brand p.category p.url p.image_url p.size_hint
        ⟨PostResp.ok (if r.created then "Product created" else "Product updated")
            r.product_id (if r.created then 201 else 200),
          r.db, step1.2 ++ r.events⟩
    | _, _ =>
      let r := productOnlyCreate step1.1 now p
      ⟨r.1, r.2.1, step1.2 ++ r.2.2⟩

/-! ## C7: validation rejects before any DB interaction -/

/-- Under a present store_id, a missing/bad/non-positive price or a
post-fallback currency of length ≠ 3 makes validation fail with a 400. -/
theorem validate_fails (d : RawData)
    (hsid : pyLower (pyStrip (d.store_id.getD "")) ≠ "")
    (hbad : (∀ v : ℚ, d.price ≠ RawPrice.num v) ∨
      (∃ v : ℚ, d.price = RawPrice.num v ∧ v ≤ 0) ∨
      (pyUpper (pyStrip (d.currency.getD "JMD")) ≠ "" ∧
        (pyUpper (pyStrip (d.currency.getD "JMD"))).length ≠ 3)) :
    ∃ m, validateManualPayload d = Except.error (m, 400) := by
  simp only [validateManualPayload]
  by_cases hn : (pyStrip (d.name.getD "")).length < 2
  · exact ⟨_, by rw [if_pos hn]⟩
  · rw [if_neg hn, if_neg hsid]
    rcases hp : d.price with _ | v | _
    · exact ⟨_, rfl⟩
    · rcases hbad with h1 | h2 | h3
      · exact absurd hp (h1 v)
      · obtain ⟨v', hv', hle⟩ := h2
        rw [hp] at hv'
        cases RawPrice.num.inj hv'
        exact ⟨"price must be greater than 0", by simp [hle]⟩
      · by_cases hle : v ≤ 0
        · exact ⟨"price must be greater than 0", by simp [hle]⟩
        · exact ⟨"currency must be a 3-letter code", by simp [hle, h3.1, h3.2]⟩
    · exact ⟨_, rfl⟩

/-- C7 (amended): with store_id present, a missing, non-numeric or
non-positive price, or a normalized currency (trimmed, uppercased, empty
falling back to "JMD") whose length is not 3, is rejected with a
descriptive message and HTTP 400 before any database interaction: the
returned state is the input state and no DB event occurs. (The original
claim is corrected: a SUPPLIED empty currency is not rejected — it falls
back to "JMD" and the request is accepted; see the counterexample.) -/
theorem claim_C7_validation_rejects_before_db
    (ps : String → SizeInfo) (db : DB) (now : Nat) (d : RawData)
    (hsid : pyLower (pyStrip (d.store_id.getD "")) ≠ "")
    (hbad : (∀ v : ℚ, d.price ≠ RawPrice.num v) ∨
      (∃ v : ℚ, d.price = RawPrice.num v ∧ v ≤ 0) ∨
      (pyUpper (pyStrip (d.currency.getD "JMD")) ≠ "" ∧
        (pyUpper (pyStrip (d.currency.getD "JMD"))).length ≠ 3)) :
    ∃ m, postManual ps db now d = ⟨PostResp.error m 400, db, []⟩ := by
  obtain ⟨m, hm⟩ := validate_fails d hsid hbad
  exact ⟨m, by simp [postManual, hm]⟩

/-- A payload with store_id "hilo", a valid price and a 2-letter currency. -/
def rawBadCurrency : RawData :=
  ⟨some "Milk", some "hilo", none, none, none, some "US", none, none, none, none,
    RawPrice.num 10, none, none, none⟩

/-- C7 witness: the 2-letter currency "US" with store "hilo" is rejected
with a 400 and the database is untouched. -/
theorem claim_C7_validation_rejects_before_db_witness :
    (pyLower (pyStrip (rawBadCurrency.store_id.getD "")) ≠ "" ∧
      pyUpper (pyStrip (rawBadCurrency.currency.getD "JMD")) ≠ "" ∧
      (pyUpper (pyStrip (rawBadCurrency.currency.getD "JMD"))).length ≠ 3) ∧
    ∃ m, postManual ps0 db0 0 rawBadCurrency = ⟨PostResp.error m 400, db0, []⟩ :=
  ⟨⟨by decide, by decide, by decide⟩,
    claim_C7_validation_rejects_before_db ps0 db0 0 rawBadCurrency (by decide)
      (Or.inr (Or.inr ⟨by decide, by decide⟩))⟩

/-- A payload with store_id "hilo", price 10 and the SUPPLIED currency "",
which is not 3 characters long. -/
def rawCurrencyEmpty : RawData :=
  ⟨some "ab", some "hilo", none, none, none, some "", none, none, none, none,
    RawPrice.num 10, none, none, none⟩

/-- C7 counterexample: the supplied currency "" is not exactly 3 characters,
yet the request is NOT rejected: it succeeds with 201 and writes a product
to the catalog (the empty currency silently falls back to "JMD"). -/
theorem claim_C7_counterexample :
    rawCurrencyEmpty.store_id = some "hilo" ∧
    (rawCurrencyEmpty.currency.getD "").length ≠ 3 ∧
    (postManual ps0 db0 0 rawCurrencyEmpty).resp = PostResp.ok "Product created" 0 201 ∧
    (postManual ps0 db0 0 rawCurrencyEmpty).db.products.length = 1 ∧
    (postManual ps0 db0 0 rawCurrencyEmpty).events ≠ [] :=
  ⟨rfl, by decide, rfl, rfl, by decide⟩

/-! ## C10: the product-only path normalizes differently from the upsert path -/

/-- Product-only payload: name "Grace-s Ketchup", no store, no price. -/
def rawGraceNoStore : RawData :=
  ⟨some "Grace-s Ketchup", none, none, none, none, none, none, none, none, none,
    RawPrice.missing, none, none, none⟩

/-- Priced payload: the same name with store "a" and price 350. -/
def rawGracePriced : RawData :=
  ⟨some "Grace-s Ketchup", some "a", none, none, none, none, none, none, none, none,
    RawPrice.num 350, none, none, none⟩

/-- C10: the product-only creation path stores and dedupes on
lowercase(trim(name)) while the priced upsert path uses `_normalize_name`,
which maps punctuation to spaces; on "Grace-s Ketchup" the two normalizations
differ, and posting the same raw name first without a store and then with a
store creates TWO canonical products with distinct normalized_names instead
of deduplicating — for every size parser. -/
theorem claim_C10_product_only_path_diverges (ps : String → SizeInfo) :
    pyLower (pyStrip "Grace-s Ketchup") ≠ normalizeName "Grace-s Ketchup" ∧
    (postManual ps (postManual ps db0 0 rawGraceNoStore).db 1 rawGracePriced).db.products.map
        (fun p => p.normalized_name) = ["grace-s ketchup", "grace s ketchup"] ∧
    (postManual ps (postManual ps db0 0 rawGraceNoStore).db 1 rawGracePriced).db.products.length
        = 2 :=
  ⟨by decide, rfl, rfl⟩
